import Mathlib

/-
Verification of the data-preparation utilities of the Brazilian e-commerce
pipeline (src/utils.py, src/config.py).

Shallow embedding conventions:
* A pandas DataFrame is a `DF`: an ordered list of column names and a list of
  rows; a row is an association list from column name to cell value.
* A cell is a `Val`: `vnull` models NaN/NaT/None, `vstr` a string cell,
  `vnum` a numeric cell (rationals model the exact arithmetic the code
  performs), `vdate` a timestamp at whole-day granularity (days since the
  Unix epoch), which is the granularity every claim is stated at.
* pandas `groupby` sorts group keys and drops null keys; `Series.mode`
  returns the tied most-frequent values in ascending sorted order, so
  `mode().iloc[0]` is the least tied value; `Series.map(d).fillna(orig)`
  leaves every value that is not a key of `d` unchanged.  These behaviours
  are embedded explicitly below.
-/

set_option maxHeartbeats 1000000

namespace BrEcom

/-- A DataFrame cell: NaN/None/NaT, a string, a number, or a timestamp
(whole days since the epoch). -/
inductive Val where
  | vnull : Val
  | vstr : String → Val
  | vnum : ℚ → Val
  | vdate : ℤ → Val
deriving DecidableEq, Repr

/-- A row: association list from column name to cell value. -/
abbrev Row := List (String × Val)

/-- Cell lookup in a row; a column that is absent from the row reads as null. -/
def Row.get (r : Row) (c : String) : Val :=
  match r.find? (fun kv => kv.1 == c) with
  | some kv => kv.2
  | none => Val.vnull

/-- Column assignment `df[c] = v` at row level: replaces the value in place
if the column exists in the row, otherwise appends it at the end. -/
def Row.set (r : Row) (c : String) (v : Val) : Row :=
  match r with
  | [] => [(c, v)]
  | kv :: rest => if kv.1 == c then (c, v) :: Row.set rest c v else kv :: Row.set rest c v

/-- A DataFrame: ordered column names plus rows. -/
structure DF where
  cols : List String
  rows : List Row
deriving DecidableEq, Repr

/-- `pd.DataFrame()`: the empty frame returned on the soft-failure paths. -/
def DF.empty : DF := ⟨[], []⟩

/-- `df[c] = series` where the series is computed row-wise from `df`. -/
def DF.addColWith (df : DF) (c : String) (f : Row → Val) : DF :=
  { cols := if c ∈ df.cols then df.cols else df.cols ++ [c],
    rows := df.rows.map (fun r => r.set c (f r)) }

/-- The source's repeated column-resolution pattern
`for col in [...]:\n  if col in df.columns: ...`: first candidate present wins. -/
def resolve (df : DF) (cands : List String) : Option String :=
  cands.find? (fun c => df.cols.contains c)

/-- Total order on cell values used to model the key ordering of
`groupby(...).agg(...)` (pandas sorts group keys ascending). -/
def Val.rank : Val → ℕ
  | .vnull => 0
  | .vstr _ => 1
  | .vnum _ => 2
  | .vdate _ => 3

/-- Lexicographic comparison of character lists by Unicode code point
(the ascending sort order Python applies to strings, hence the order in
which pandas `Series.mode` returns tied values). -/
def charListLtb : List Char → List Char → Bool
  | [], [] => false
  | [], _ :: _ => true
  | _ :: _, [] => false
  | a :: as', b :: bs' =>
    if a.toNat < b.toNat then true
    else if b.toNat < a.toNat then false
    else charListLtb as' bs'

/-- Strict lexicographic order on strings. -/
def strLtb (a b : String) : Bool := charListLtb a.data b.data

/-- `a ≤ b` in the lexicographic string order. -/
def strLeb (a b : String) : Bool := !(strLtb b a)

/-- Boolean comparison on cells: by constructor rank, then by payload. -/
def Val.leb : Val → Val → Bool
  | .vstr a, .vstr b => strLeb a b
  | .vnum a, .vnum b => decide (a ≤ b)
  | .vdate a, .vdate b => decide (a ≤ b)
  | v, w => decide (v.rank ≤ w.rank)

/-- Ordered insertion for the insertion sort below. -/
def insertVal (v : Val) : List Val → List Val
  | [] => [v]
  | w :: ws => if Val.leb v w then v :: w :: ws else w :: insertVal v ws

/-- Insertion sort on cell values (models the ascending key order of
pandas `groupby` output). -/
def sortVals : List Val → List Val
  | [] => []
  | v :: vs => insertVal v (sortVals vs)

/-- The group keys of `df.groupby(idc)`: distinct non-null values of the key
column, in ascending order (pandas sorts keys and drops null keys). -/
def sortedKeys (df : DF) (idc : String) : List Val :=
  sortVals (((df.rows.map (fun r => Row.get r idc)).filter (fun v => v ≠ Val.vnull)).dedup)

/-- The rows of one group, in original row order. -/
def groupRows (df : DF) (idc : String) (k : Val) : List Row :=
  df.rows.filter (fun r => Row.get r idc == k)

/-- Numeric sum of a column slice, skipping nulls (pandas `sum`, `skipna`
default; an all-null slice sums to 0). -/
def sumNums (vs : List Val) : ℚ :=
  vs.foldl (fun acc v => match v with | .vnum q => acc + q | _ => acc) 0

/-- Maximum of a numeric column slice, skipping nulls; null if no numeric
value is present (pandas `max`). -/
def maxNumVal (vs : List Val) : Val :=
  match vs.foldl (fun acc v =>
      match acc, v with
      | none, .vnum q => some q
      | some m, .vnum q => some (if m ≤ q then q else m)
      | acc, _ => acc) none with
  | some m => Val.vnum m
  | none => Val.vnull

/-- Minimum of a datetime column slice, skipping nulls; NaT if none
(pandas `min` on datetimes). -/
def minDateVal (vs : List Val) : Val :=
  match vs.foldl (fun acc v =>
      match acc, v with
      | none, .vdate d => some d
      | some m, .vdate d => some (if d ≤ m then d else m)
      | acc, _ => acc) none with
  | some m => Val.vdate m
  | none => Val.vnull

/-- Maximum of a datetime column slice, skipping nulls; NaT if none. -/
def maxDateVal (vs : List Val) : Val :=
  match vs.foldl (fun acc v =>
      match acc, v with
      | none, .vdate d => some d
      | some m, .vdate d => some (if m ≤ d then d else m)
      | acc, _ => acc) none with
  | some m => Val.vdate m
  | none => Val.vnull

/-- `Series.nunique`: number of distinct non-null values. -/
def nuniqueVals (vs : List Val) : ℕ :=
  ((vs.filter (fun v => v ≠ Val.vnull)).dedup).length

/-- The string values of a column slice, nulls dropped (`Series.mode`
operates on the non-null values; the payment-type column holds strings). -/
def strVals (vs : List Val) : List String :=
  vs.filterMap (fun v => match v with | .vstr s => some s | _ => none)

/-- The highest frequency among the values of the list. -/
def contaMax (xs : List String) : ℕ :=
  (xs.map (fun v => xs.count v)).foldr max 0

/-- Minimum of a list of strings (none on the empty list). -/
def listMin : List String → Option String
  | [] => none
  | s :: rest =>
    some (match listMin rest with
      | none => s
      | some w => if strLeb s w then s else w)

/-- `Series.mode().iloc[0]` as the source uses it: `Series.mode` returns the
values tied for the highest frequency in ascending sorted order, so its first
element is the least value among the tied ones; the mode of an empty slice is
empty and the source then falls back to `None`. -/
def strMode (xs : List String) : Option String :=
  listMin ((xs.dedup).filter (fun v => xs.count v == contaMax xs))

/-- One output row of `aggrega_pagamenti` (source lines 212-227): the order
identifier followed by the aggregates, in the insertion order of `agg_dict`:
`pagamento_totale` (sum), `num_pagamenti` (max), `tipo_pagamento_principale`
(mode with `None` fallback). -/
def aggRowPag (df : DF) (idc : String) (valc seqc typec : Option String) (k : Val) : Row :=
  let g := groupRows df idc k
  (idc, k) ::
    ((match valc with
      | some vc => [("pagamento_totale", Val.vnum (sumNums (g.map (fun r => Row.get r vc))))]
      | none => []) ++
     (match seqc with
      | some sc => [("num_pagamenti", maxNumVal (g.map (fun r => Row.get r sc)))]
      | none => []) ++
     (match typec with
      | some tc => [("tipo_pagamento_principale",
          match strMode (strVals (g.map (fun r => Row.get r tc))) with
          | some s => Val.vstr s
          | none => Val.vnull)]
      | none => []))

/-- `aggrega_pagamenti` (src/utils.py lines 175-229): aggregates payments per
order.  Soft failures: empty input, unresolvable order-id column, or no
aggregatable column at all, each yield an empty frame. -/
def aggrega_pagamenti (df_pagamenti : DF) : DF :=
  if df_pagamenti.rows = [] then DF.empty
  else
    match resolve df_pagamenti ["id_ordine", "order_id"] with
    | none => DF.empty
    | some idc =>
      let valc := resolve df_pagamenti ["valore_pagamento_eur", "payment_value", "valore_pagamento"]
      let typec := resolve df_pagamenti ["tipo_pagamento", "payment_type"]
      let seqc := resolve df_pagamenti ["sequenza_pagamento", "payment_sequential"]
      if valc = none ∧ seqc = none ∧ typec = none then DF.empty
      else
        { cols := idc ::
            ((match valc with | some _ => ["pagamento_totale"] | none => []) ++
             (match seqc with | some _ => ["num_pagamenti"] | none => []) ++
             (match typec with | some _ => ["tipo_pagamento_principale"] | none => [])),
          rows := (sortedKeys df_pagamenti idc).map (aggRowPag df_pagamenti idc valc seqc typec) }

/-- Column rename `df.rename(columns=tc)`: translate a label if it is a key
of the mapping, leave it unchanged otherwise. -/
def rename1 (tc : List (String × String)) (c : String) : String :=
  match tc.find? (fun p => p.1 == c) with
  | some p => p.2
  | none => c

/-- `series.map(m).fillna(series)`: remap a string cell whose value is a key
of `m`; every other cell (unmapped string, null, non-string) is unchanged. -/
def applyValMap (m : List (String × String)) (v : Val) : Val :=
  match v with
  | .vstr s =>
    match m.find? (fun p => p.1 == s) with
    | some p => Val.vstr p.2
    | none => v
  | _ => v

/-- Value translation of one column
(`df[colonna] = df[colonna].map(mappatura).fillna(df[colonna])`). -/
def mapColVals (d : DF) (c : String) (m : List (String × String)) : DF :=
  { cols := d.cols,
    rows := d.rows.map (fun r =>
      r.map (fun kv => if kv.1 = c then (kv.1, applyValMap m kv.2) else kv)) }

/-- The value-translation loop of `traduci_dataset`
(`for colonna, mappatura in traduzione_valori.items(): if colonna in
df_tradotto.columns: ...`). -/
def applicaTraduzioneValori (tv : List (String × List (String × String))) (d : DF) : DF :=
  tv.foldl (fun d pr => if pr.1 ∈ d.cols then mapColVals d pr.1 pr.2 else d) d

/-- `traduci_dataset` (src/utils.py lines 93-121): rename the columns, then
for each entry of the value-translation dictionary whose column is present,
remap that column's values with original-value fallback. -/
def traduci_dataset (df : DF) (traduzione_colonne : List (String × String))
    (traduzione_valori : List (String × List (String × String))) : DF :=
  applicaTraduzioneValori traduzione_valori
    { cols := df.cols.map (rename1 traduzione_colonne),
      rows := df.rows.map (fun r => r.map (fun kv => (rename1 traduzione_colonne kv.1, kv.2))) }

/-- The value-translation loop at cell level: the per-column maps applied in
order to one cell, each guarded by the presence of its column. -/
def cellaValori (tv : List (String × List (String × String))) (cols : List String)
    (kv : String × Val) : String × Val :=
  tv.foldl
    (fun kv pr =>
      if pr.1 ∈ cols then
        (if kv.1 = pr.1 then (kv.1, applyValMap pr.2 kv.2) else kv)
      else kv) kv

/-- The whole of `traduci_dataset` at cell level: rename the key, then run
the guarded value maps. -/
def cellaTraduzione (tc : List (String × String)) (tv : List (String × List (String × String)))
    (cols : List String) (kv : String × Val) : String × Val :=
  cellaValori tv cols (rename1 tc kv.1, kv.2)

/-- `TRADUZIONE_COLONNE` (src/config.py lines 43-88). -/
def TRADUZIONE_COLONNE : List (String × String) :=
  [("customer_id", "id_cliente"),
   ("customer_unique_id", "id_cliente_unico"),
   ("customer_zip_code_prefix", "cap_cliente"),
   ("customer_city", "citta_cliente"),
   ("customer_state", "stato_cliente"),
   ("order_id", "id_ordine"),
   ("order_status", "stato_ordine"),
   ("order_purchase_timestamp", "data_acquisto"),
   ("order_approved_at", "data_approvazione"),
   ("order_delivered_carrier_date", "data_spedizione"),
   ("order_delivered_customer_date", "data_consegna"),
   ("order_estimated_delivery_date", "data_consegna_stimata"),
   ("order_item_id", "id_articolo_ordine"),
   ("product_id", "id_prodotto"),
   ("seller_id", "id_venditore"),
   ("shipping_limit_date", "data_limite_spedizione"),
   ("price", "prezzo"),
   ("freight_value", "costo_spedizione"),
   ("payment_sequential", "sequenza_pagamento"),
   ("payment_type", "tipo_pagamento"),
   ("payment_installments", "rate_pagamento"),
   ("payment_value", "valore_pagamento"),
   ("review_id", "id_recensione"),
   ("review_score", "punteggio_recensione"),
   ("review_comment_title", "titolo_commento"),
   ("review_comment_message", "messaggio_commento"),
   ("review_creation_date", "data_creazione_recensione"),
   ("review_answer_timestamp", "data_risposta_recensione"),
   ("seller_zip_code_prefix", "cap_venditore"),
   ("seller_city", "citta_venditore"),
   ("seller_state", "stato_venditore"),
   ("product_category_name", "categoria_prodotto"),
   ("product_name_lenght", "lunghezza_nome_prodotto"),
   ("product_description_lenght", "lunghezza_descrizione"),
   ("product_photos_qty", "numero_foto"),
   ("product_weight_g", "peso_prodotto_g"),
   ("product_length_cm", "lunghezza_prodotto_cm"),
   ("product_height_cm", "altezza_prodotto_cm"),
   ("product_width_cm", "larghezza_prodotto_cm"),
   ("geolocation_zip_code_prefix", "cap_geolocalizzazione"),
   ("geolocation_lat", "latitudine"),
   ("geolocation_lng", "longitudine"),
   ("geolocation_city", "citta_geolocalizzazione"),
   ("geolocation_state", "stato_geolocalizzazione")]

/-- `TRADUZIONE_STATI_ORDINE` (src/config.py lines 91-100). -/
def TRADUZIONE_STATI_ORDINE : List (String × String) :=
  [("delivered", "consegnato"),
   ("shipped", "spedito"),
   ("canceled", "cancellato"),
   ("unavailable", "non_disponibile"),
   ("invoiced", "fatturato"),
   ("processing", "in_elaborazione"),
   ("created", "creato"),
   ("approved", "approvato")]

/-- `TRADUZIONE_PAGAMENTI` (src/config.py lines 102-108). -/
def TRADUZIONE_PAGAMENTI : List (String × String) :=
  [("credit_card", "carta_di_credito"),
   ("boleto", "boleto"),
   ("voucher", "voucher"),
   ("debit_card", "carta_di_debito"),
   ("not_defined", "non_definito")]

/-- The value-translation dictionary the pipeline passes to
`traduci_dataset`: the two per-column value maps of src/config.py keyed by
the translated names of the columns they apply to. -/
def TRADUZIONE_VALORI : List (String × List (String × String)) :=
  [("stato_ordine", TRADUZIONE_STATI_ORDINE),
   ("tipo_pagamento", TRADUZIONE_PAGAMENTI)]

/-- Difference of two timestamp cells in whole days
(`(a - b).dt.days`); null if either endpoint is null. -/
def diffDays (a b : Val) : Val :=
  match a, b with
  | .vdate x, .vdate y => Val.vnum ((x - y : ℤ) : ℚ)
  | _, _ => Val.vnull

/-- Year and month of a day number (Gregorian calendar, days since the
Unix epoch); models `.dt.year` and the month of `.dt.to_period` on a
timestamp stored at day granularity. -/
def civilYM (z0 : ℤ) : ℤ × ℤ :=
  let z := z0 + 719468
  let era := Int.fdiv z 146097
  let doe := z - era * 146097
  let yoe := Int.fdiv (doe - Int.fdiv doe 1460 + Int.fdiv doe 36524 - Int.fdiv doe 146096) 365
  let y := yoe + era * 400
  let doy := doe - (365 * yoe + Int.fdiv yoe 4 - Int.fdiv yoe 100)
  let mp := Int.fdiv (5 * doy + 2) 153
  let m := mp + (if mp < 10 then 3 else -9)
  (y + (if m ≤ 2 then 1 else 0), m)

/-- `.dt.to_period` with monthly frequency, as its textual form `YYYY-MM`. -/
def meseStr (z : ℤ) : String :=
  let ym := civilYM z
  toString ym.1 ++ "-" ++ (if ym.2 < 10 then "0" else "") ++ toString ym.2

/-- `.dt.day_name()`: day 0 of the epoch is a Thursday. -/
def giornoSettimana (z : ℤ) : String :=
  ["Thursday", "Friday", "Saturday", "Sunday", "Monday", "Tuesday", "Wednesday"].getD
    (Int.emod z 7).toNat ""

/-- First guarded block of `calcola_metriche_temporali` (src/utils.py lines
346-349): `giorni_consegna` (delivery minus purchase, whole days). -/
def calcolaGiorniConsegna (df : DF) : DF :=
  if "data_consegna" ∈ df.cols ∧ "data_acquisto" ∈ df.cols then
    df.addColWith "giorni_consegna"
      (fun r => diffDays (Row.get r "data_consegna") (Row.get r "data_acquisto"))
  else df

/-- Second guarded block (lines 351-354): `ritardo_consegna` (delivery minus
estimated delivery, whole days). -/
def calcolaRitardoConsegna (df : DF) : DF :=
  if "data_consegna" ∈ df.cols ∧ "data_consegna_stimata" ∈ df.cols then
    df.addColWith "ritardo_consegna"
      (fun r => diffDays (Row.get r "data_consegna") (Row.get r "data_consegna_stimata"))
  else df

/-- Third guarded block (lines 356-359): calendar decomposition of the
purchase timestamp. -/
def calcolaCalendario (df : DF) : DF :=
  if "data_acquisto" ∈ df.cols then
    ((df.addColWith "mese_acquisto"
        (fun r => match Row.get r "data_acquisto" with
          | .vdate z => Val.vstr (meseStr z)
          | _ => Val.vnull)).addColWith "anno_acquisto"
        (fun r => match Row.get r "data_acquisto" with
          | .vdate z => Val.vnum ((civilYM z).1 : ℚ)
          | _ => Val.vnull)).addColWith "giorno_settimana"
        (fun r => match Row.get r "data_acquisto" with
          | .vdate z => Val.vstr (giornoSettimana z)
          | _ => Val.vnull)
  else df

/-- `calcola_metriche_temporali` (src/utils.py lines 340-362): the three
guarded derivations applied in source order to the working copy. -/
def calcola_metriche_temporali (df : DF) : DF :=
  calcolaCalendario (calcolaRitardoConsegna (calcolaGiorniConsegna df))

/-- One step of `pd.cut`: try the interval `(lo, hi]` (or `[lo, hi]` for the
first interval when `include_lowest` is set), else move to the next edge. -/
def cutGo (x : ℚ) : WithTop ℚ → Bool → List (WithTop ℚ) → List String → Option String
  | lo, first, hi :: bs, lab :: ls =>
    if (if first then lo ≤ (x : WithTop ℚ) else lo < (x : WithTop ℚ)) ∧ (x : WithTop ℚ) ≤ hi
    then some lab
    else cutGo x hi false bs ls
  | _, _, _, _ => none

/-- `pd.cut(x, bins, labels, include_lowest)` on a single numeric value:
assigns the label of the interval `(edge[i-1], edge[i]]` containing `x`,
with the lowest edge inclusive when `include_lowest` is set; values outside
the outer edges get no label.  The upper edge may be `⊤` (`float('inf')` in
src/config.py). -/
def pdCut (includeLowest : Bool) (bins : List (WithTop ℚ)) (labels : List String) (x : ℚ) :
    Option String :=
  match bins with
  | lo :: rest => cutGo x lo includeLowest rest labels
  | [] => none

/-- `crea_categorie_binning` (src/utils.py lines 365-388): returns the input
unchanged when the target column is absent; otherwise adds the categorical
column `nome_output` (default `colonna ++ "_cat"`) computed by `pd.cut` with
`include_lowest=True`.  Null cells bin to null. -/
def crea_categorie_binning (df : DF) (colonna : String) (bins : List (WithTop ℚ))
    (labels : List String) (nome_output : Option String) : DF :=
  if colonna ∉ df.cols then df
  else
    df.addColWith (nome_output.getD (colonna ++ "_cat"))
      (fun r =>
        match Row.get r colonna with
        | .vnum x =>
          match pdCut true bins labels x with
          | some lab => Val.vstr lab
          | none => Val.vnull
        | _ => Val.vnull)

/-- Ordered insertion on rationals for the quantile computation. -/
def insertQ (a : ℚ) : List ℚ → List ℚ
  | [] => [a]
  | b :: bs => if a ≤ b then a :: b :: bs else b :: insertQ a bs

/-- Insertion sort on rationals. -/
def sortQ : List ℚ → List ℚ
  | [] => []
  | a :: as' => insertQ a (sortQ as')

/-- Linear-interpolation quantile of a sorted list (the default
interpolation of `Series.quantile`, used inside `pd.qcut`). -/
def quantileSorted (s : List ℚ) (p : ℚ) : ℚ :=
  let n := s.length
  let h : ℚ := p * ((n : ℚ) - 1)
  let j : ℤ := ⌊h⌋
  let g : ℚ := h - (j : ℚ)
  let a := s.getD j.toNat 0
  let b := s.getD (j.toNat + 1) a
  a + g * (b - a)

/-- The bin edges of `pd.qcut(xs, q=3, duplicates='drop')`: the quantiles at
0, 1/3, 2/3, 1 with duplicate edges dropped (`np.unique`; the quantiles are
already nondecreasing). -/
def qcutEdges (xs : List ℚ) : List ℚ :=
  (([0, 1/3, 2/3, 1] : List ℚ).map (quantileSorted (sortQ xs))).dedup

/-- The `segmento_frequenza` cell: `pd.cut` with the
`BINNING_CONFIG['frequenza_ordini']` edges `[0, 1, 3, inf]` and labels
`['Bassa', 'Media', 'Alta']` (src/config.py lines 142-145); the source call
does not set `include_lowest`. -/
def freqCat (n : ℚ) : Val :=
  match pdCut false [((0 : ℚ) : WithTop ℚ), ((1 : ℚ) : WithTop ℚ), ((3 : ℚ) : WithTop ℚ), ⊤]
      ["Bassa", "Media", "Alta"] n with
  | some lab => Val.vstr lab
  | none => Val.vnull

/-- The `segmento_valore` cell: `pd.qcut` assignment with the dropped-duplicate
edges and labels `['Basso', 'Medio', 'Alto']` (qcut includes the lowest edge). -/
def valCat (edges : List ℚ) (x : ℚ) : Val :=
  match pdCut true (edges.map (fun e => ((e : ℚ) : WithTop ℚ))) ["Basso", "Medio", "Alto"] x with
  | some lab => Val.vstr lab
  | none => Val.vnull

/-- One row of `clienti_stats` before the `segmento_valore` column
(src/utils.py lines 427-448): the per-customer aggregates of
`df.groupby(id_cliente).agg(...)` with the renamed fixed column names, the
two derived columns, and `segmento_frequenza`.  `spesa_media_ordine` is the
total divided by the order count (the embedding's rational division returns
0 on a zero count, which pandas renders as inf; no claim depends on it). -/
def statsRow (df : DF) (ic io vc dc : String) (k : Val) : Row :=
  let g := groupRows df ic k
  let num : ℚ := (nuniqueVals (g.map (fun r => Row.get r io)) : ℚ)
  let spesa : ℚ := sumNums (g.map (fun r => Row.get r vc))
  let primo := minDateVal (g.map (fun r => Row.get r dc))
  let ultimo := maxDateVal (g.map (fun r => Row.get r dc))
  [("id_cliente", k),
   ("num_ordini", Val.vnum num),
   ("spesa_totale", Val.vnum spesa),
   ("primo_acquisto", primo),
   ("ultimo_acquisto", ultimo),
   ("vita_cliente_giorni", diffDays ultimo primo),
   ("spesa_media_ordine", Val.vnum (spesa / num)),
   ("segmento_frequenza", freqCat num)]

/-- The `clienti_stats` frame of `segmenta_clienti`: one row per distinct
non-null customer identifier (ascending key order of `groupby`), each row a
`statsRow` plus, when `pd.qcut(q=3, duplicates='drop')` keeps 4 distinct
quantile edges, the `segmento_valore` column; with fewer edges the qcut call
raises (label count no longer matches) and the bare `except` skips the
column. -/
def statsDF (df : DF) (ic io vc dc : String) : DF :=
  let keys := sortedKeys df ic
  let spese : List ℚ :=
    keys.map (fun k => sumNums ((groupRows df ic k).map (fun r => Row.get r vc)))
  let edges := qcutEdges spese
  let conValore := edges.length = 4
  { cols :=
      ["id_cliente", "num_ordini", "spesa_totale", "primo_acquisto", "ultimo_acquisto",
       "vita_cliente_giorni", "spesa_media_ordine", "segmento_frequenza"] ++
      (if conValore then ["segmento_valore"] else []),
    rows := keys.map (fun k =>
      statsRow df ic io vc dc k ++
      (if conValore then
         [("segmento_valore",
           valCat edges (sumNums ((groupRows df ic k).map (fun r => Row.get r vc))))]
       else [])) }

/-- `segmenta_clienti` (src/utils.py lines 391-461): resolves the customer,
order, monetary and purchase-date columns; if any is absent it returns the
input unchanged next to an empty frame; otherwise the input unchanged next
to the per-customer statistics. -/
def segmenta_clienti (df : DF) : DF × DF :=
  match resolve df ["id_cliente", "customer_id"],
        resolve df ["id_ordine", "order_id"],
        resolve df ["totale_ordine_eur", "valore_pagamento_eur", "pagamento_totale"],
        resolve df ["data_acquisto", "order_purchase_timestamp"] with
  | some ic, some io, some vc, some dc => (df, statsDF df ic io vc dc)
  | _, _, _, _ => (df, DF.empty)

/-- Modelled from the spec: the rule-based tier assignment of the RFM
segmenter (spec section 4.5 step 4).  The quantile scoring and tier
assignment of the segmenter are part of the repository's analysis variants
that are not under src/ (src/utils.py's `segmenta_clienti` stops at the
frequency/value cut columns), so the rule table is taken verbatim from the
spec: rules are evaluated in priority order and the first match wins. -/
def assegna_segmento (freq_score mon_score : ℕ) : String :=
  if 4 ≤ freq_score ∧ 4 ≤ mon_score then "High Value"
  else if 3 ≤ freq_score ∧ 3 ≤ mon_score then "Medium Value"
  else if freq_score ≤ 2 ∧ mon_score ≤ 2 then "Low Value"
  else "Medium-Low Value"

/-- Modelled from the spec: the merge of the per-customer segment label back
onto every order row (spec section 4.5 step 5, a one-to-many broadcast).
This step is not under src/ (`segmenta_clienti` returns the order table
unchanged next to the per-customer statistics); the broadcast attaches to
each order row the `labc` cell of the statistics row whose `id_cliente`
matches the row's customer identifier. -/
def broadcast_segmento (df stats : DF) (idc labc : String) : DF :=
  { cols := df.cols ++ [labc],
    rows := df.rows.map (fun r =>
      r.set labc
        (match stats.rows.find? (fun s => Row.get s "id_cliente" == Row.get r idc) with
         | some s => Row.get s labc
         | none => Val.vnull)) }

/-- Payments table with a tied payment-type mode for order `o1` ("voucher"
appears before "boleto" in row order, each once) and an all-null type slice
for order `o2`; it has no payment-value column. -/
def dfPagTie : DF :=
  ⟨["order_id", "payment_type"],
   [[("order_id", Val.vstr "o1"), ("payment_type", Val.vstr "voucher")],
    [("order_id", Val.vstr "o1"), ("payment_type", Val.vstr "boleto")],
    [("order_id", Val.vstr "o2"), ("payment_type", Val.vnull)]]⟩

/-- Payments table with an order-id and a payment-type column but no
payment-value column. -/
def dfPagSenzaValore : DF :=
  ⟨["order_id", "payment_type"],
   [[("order_id", Val.vstr "o1"), ("payment_type", Val.vstr "boleto")]]⟩

/-- Payments table with an order-id column but no value, sequential or type
column. -/
def dfPagSoloId : DF :=
  ⟨["order_id", "note"],
   [[("order_id", Val.vstr "o1"), ("note", Val.vstr "x")]]⟩

/-- Unified table with resolvable customer, order, monetary and date columns. -/
def dfUnificato : DF :=
  ⟨["id_cliente", "id_ordine", "pagamento_totale", "data_acquisto"],
   [[("id_cliente", Val.vstr "c1"), ("id_ordine", Val.vstr "o1"),
     ("pagamento_totale", Val.vnum 50), ("data_acquisto", Val.vdate 100)],
    [("id_cliente", Val.vstr "c2"), ("id_ordine", Val.vstr "o2"),
     ("pagamento_totale", Val.vnum 10), ("data_acquisto", Val.vdate 105)],
    [("id_cliente", Val.vstr "c1"), ("id_ordine", Val.vstr "o3"),
     ("pagamento_totale", Val.vnum 150), ("data_acquisto", Val.vdate 119)]]⟩

/-- Unified table missing the purchase-timestamp and monetary columns. -/
def dfSenzaData : DF :=
  ⟨["id_cliente", "id_ordine"],
   [[("id_cliente", Val.vstr "c1"), ("id_ordine", Val.vstr "o1")]]⟩

/-- Order table with only the approval and carrier-handoff timestamp columns. -/
def dfApprovSped : DF :=
  ⟨["data_approvazione", "data_spedizione"],
   [[("data_approvazione", Val.vdate 17000), ("data_spedizione", Val.vdate 17003)]]⟩

/-- Order table with purchase and delivery timestamps (one row has a null
delivery endpoint). -/
def dfConsegne : DF :=
  ⟨["data_acquisto", "data_consegna"],
   [[("data_acquisto", Val.vdate 100), ("data_consegna", Val.vdate 110)],
    [("data_acquisto", Val.vdate 101), ("data_consegna", Val.vnull)]]⟩

/-- Numeric table for the binning witnesses. -/
def dfPrezzi : DF :=
  ⟨["prezzo"], [[("prezzo", Val.vnum 75)]]⟩

/-- A small table for the translation witness. -/
def dfTradWit : DF :=
  ⟨["a"], [[("a", Val.vstr "x")]]⟩

/- ================= Helper lemmas ================= -/

theorem Row.get_cons_self (c : String) (v : Val) (r : Row) :
    Row.get ((c, v) :: r) c = v := by
  simp [Row.get, List.find?]

theorem Row.get_cons_ne (k c : String) (v : Val) (r : Row) (h : k ≠ c) :
    Row.get ((k, v) :: r) c = Row.get r c := by
  simp [Row.get, List.find?, beq_eq_false_iff_ne.mpr h]

theorem Row.get_append_right (r1 r2 : Row) (c : String) (h : ∀ kv ∈ r1, kv.1 ≠ c) :
    Row.get (r1 ++ r2) c = Row.get r2 c := by
  induction r1 with
  | nil => rfl
  | cons kv t ih =>
    obtain ⟨k, v⟩ := kv
    rw [List.cons_append, Row.get_cons_ne k c v _ (h (k, v) (by simp))]
    exact ih (fun x hx => h x (by simp [hx]))

theorem Row.get_set_self (r : Row) (c : String) (v : Val) :
    Row.get (Row.set r c v) c = v := by
  induction r with
  | nil => simp [Row.set, Row.get, List.find?]
  | cons kv t ih =>
    by_cases h : kv.1 = c
    · simp only [Row.set, h, beq_self_eq_true, if_true]
      exact Row.get_cons_self c v _
    · simp only [Row.set, beq_eq_false_iff_ne.mpr h, Bool.false_eq_true, if_false]
      rw [show (kv = (kv.1, kv.2)) from rfl, Row.get_cons_ne kv.1 c kv.2 _ h]
      exact ih

theorem Row.get_set_ne (r : Row) (c c' : String) (v : Val) (h : c' ≠ c) :
    Row.get (Row.set r c v) c' = Row.get r c' := by
  induction r with
  | nil =>
    simp [Row.set, Row.get, List.find?, beq_eq_false_iff_ne.mpr (Ne.symm h)]
  | cons kv t ih =>
    by_cases hk : kv.1 = c
    · simp only [Row.set, hk, beq_self_eq_true, if_true]
      rw [Row.get_cons_ne c c' v _ (Ne.symm h), ih,
        show (kv = (kv.1, kv.2)) from rfl, Row.get_cons_ne kv.1 c' kv.2 t (hk ▸ Ne.symm h)]
    · simp only [Row.set, beq_eq_false_iff_ne.mpr hk, Bool.false_eq_true, if_false]
      by_cases hck : kv.1 = c'
      · rw [show (kv = (kv.1, kv.2)) from rfl]
        rw [hck, Row.get_cons_self, Row.get_cons_self]
      · rw [show (kv = (kv.1, kv.2)) from rfl, Row.get_cons_ne kv.1 c' kv.2 _ hck,
          Row.get_cons_ne kv.1 c' kv.2 t hck]
        exact ih

theorem resolve_mem_cands {df : DF} {cands : List String} {c : String}
    (h : resolve df cands = some c) : c ∈ cands :=
  List.mem_of_find?_eq_some h

theorem resolve_mem_cols {df : DF} {cands : List String} {c : String}
    (h : resolve df cands = some c) : c ∈ df.cols := by
  have := List.find?_some h
  simpa using this

theorem insertVal_perm (v : Val) (l : List Val) : List.Perm (insertVal v l) (v :: l) := by
  induction l with
  | nil => exact List.Perm.refl _
  | cons w ws ih =>
    simp only [insertVal]
    split
    · exact List.Perm.refl _
    · exact (ih.cons w).trans (List.Perm.swap v w ws)

theorem sortVals_perm (l : List Val) : List.Perm (sortVals l) l := by
  induction l with
  | nil => exact List.Perm.refl _
  | cons v vs ih => exact (insertVal_perm v (sortVals vs)).trans (ih.cons v)

theorem mem_sortVals {v : Val} {l : List Val} : v ∈ sortVals l ↔ v ∈ l :=
  (sortVals_perm l).mem_iff

theorem sortVals_nodup {l : List Val} (h : l.Nodup) : (sortVals l).Nodup :=
  ((sortVals_perm l).nodup_iff).mpr h

theorem mem_sortedKeys {df : DF} {idc : String} {v : Val} :
    v ∈ sortedKeys df idc ↔ (v ∈ df.rows.map (fun r => Row.get r idc) ∧ v ≠ Val.vnull) := by
  unfold sortedKeys
  rw [mem_sortVals, List.mem_dedup, List.mem_filter]
  simp

theorem sortedKeys_nodup (df : DF) (idc : String) : (sortedKeys df idc).Nodup :=
  sortVals_nodup (List.nodup_dedup _)

theorem charListLtb_irrefl (l : List Char) : charListLtb l l = false := by
  induction l with
  | nil => rfl
  | cons a t ih => simp [charListLtb, ih]

theorem charListLtb_asymm {a b : List Char} (h : charListLtb a b = true) :
    charListLtb b a = false := by
  induction a generalizing b with
  | nil =>
    cases b with
    | nil => simp [charListLtb] at h
    | cons y ys => rfl
  | cons x xs ih =>
    cases b with
    | nil => simp [charListLtb] at h
    | cons y ys =>
      by_cases hxy : x.toNat < y.toNat
      · simp [charListLtb, hxy, Nat.lt_asymm hxy, Nat.ne_of_lt hxy]
      · by_cases hyx : y.toNat < x.toNat
        · simp [charListLtb, hxy, hyx] at h
        · have h' : charListLtb xs ys = true := by simpa [charListLtb, hxy, hyx] using h
          simp [charListLtb, hxy, hyx, ih h']

theorem charListLtb_trans {a b c : List Char} (hab : charListLtb a b = true)
    (hbc : charListLtb b c = true) : charListLtb a c = true := by
  induction a generalizing b c with
  | nil =>
    cases b with
    | nil => simp [charListLtb] at hab
    | cons y ys =>
      cases c with
      | nil => simp [charListLtb] at hbc
      | cons z zs => rfl
  | cons x xs ih =>
    cases b with
    | nil => simp [charListLtb] at hab
    | cons y ys =>
      cases c with
      | nil => simp [charListLtb] at hbc
      | cons z zs =>
        by_cases hxy : x.toNat < y.toNat
        · by_cases hyz : y.toNat < z.toNat
          · simp [charListLtb, Nat.lt_trans hxy hyz]
          · by_cases hzy : z.toNat < y.toNat
            · simp [charListLtb, hyz, hzy] at hbc
            · have heq : y.toNat = z.toNat :=
                Nat.le_antisymm (Nat.le_of_not_lt hzy) (Nat.le_of_not_lt hyz)
              simp [charListLtb, heq ▸ hxy]
        · by_cases hyx : y.toNat < x.toNat
          · simp [charListLtb, hxy, hyx] at hab
          · have hab' : charListLtb xs ys = true := by
              simpa [charListLtb, hxy, hyx] using hab
            have hxy' : x.toNat = y.toNat :=
              Nat.le_antisymm (Nat.le_of_not_lt hyx) (Nat.le_of_not_lt hxy)
            by_cases hyz : y.toNat < z.toNat
            · simp [charListLtb, hxy' ▸ hyz]
            · by_cases hzy : z.toNat < y.toNat
              · simp [charListLtb, hyz, hzy] at hbc
              · have hbc' : charListLtb ys zs = true := by
                  simpa [charListLtb, hyz, hzy] using hbc
                have hyz' : y.toNat = z.toNat :=
                  Nat.le_antisymm (Nat.le_of_not_lt hzy) (Nat.le_of_not_lt hyz)
                have h1 : ¬ x.toNat < z.toNat := by omega
                have h2 : ¬ z.toNat < x.toNat := by omega
                simp [charListLtb, h1, h2, ih hab' hbc']

theorem strLeb_refl (s : String) : strLeb s s = true := by
  simp [strLeb, strLtb, charListLtb_irrefl]

theorem strLeb_total {a b : String} (h : strLeb a b = false) : strLeb b a = true := by
  simp only [strLeb, strLtb, Bool.not_eq_false'] at h
  simp [strLeb, strLtb, charListLtb_asymm h]

theorem charListLtb_connex {a b : List Char} (hab : charListLtb a b = false)
    (hba : charListLtb b a = false) : a = b := by
  induction a generalizing b with
  | nil =>
    cases b with
    | nil => rfl
    | cons y ys => simp [charListLtb] at hab
  | cons x xs ih =>
    cases b with
    | nil => simp [charListLtb] at hba
    | cons y ys =>
      by_cases hxy : x.toNat < y.toNat
      · simp [charListLtb, hxy] at hab
      · by_cases hyx : y.toNat < x.toNat
        · simp [charListLtb, hyx] at hba
        · have hxy' : x.toNat = y.toNat :=
            Nat.le_antisymm (Nat.le_of_not_lt hyx) (Nat.le_of_not_lt hxy)
          have hx : x = y :=
            Char.eq_of_val_eq (UInt32.toNat.inj hxy')
          have hab' : charListLtb xs ys = false := by
            simpa [charListLtb, hxy, hyx] using hab
          have hba' : charListLtb ys xs = false := by
            simpa [charListLtb, hxy, hyx] using hba
          rw [hx, ih hab' hba']

theorem strLeb_trans {a b c : String} (hab : strLeb a b = true) (hbc : strLeb b c = true) :
    strLeb a c = true := by
  simp only [strLeb, strLtb, Bool.not_eq_true', Bool.not_eq_false'] at hab hbc ⊢
  by_cases hca : charListLtb c.data a.data = true
  · by_cases hbc2 : charListLtb b.data c.data = true
    · have hba : charListLtb b.data a.data = true := charListLtb_trans hbc2 hca
      rw [hba] at hab
      exact absurd hab (by simp)
    · have hbceq : b.data = c.data :=
        charListLtb_connex (Bool.not_eq_true _ ▸ hbc2) hbc
      rw [← hbceq] at hca
      rw [hca] at hab
      exact absurd hab (by simp)
  · exact Bool.not_eq_true _ ▸ hca

theorem listMin_spec (l : List String) (h : l ≠ []) :
    ∃ m, listMin l = some m ∧ m ∈ l ∧ ∀ x ∈ l, strLeb m x = true := by
  induction l with
  | nil => exact absurd rfl h
  | cons s rest ih =>
    cases hw : listMin rest with
    | none =>
      cases rest with
      | nil =>
        refine ⟨s, by simp [listMin], by simp, ?_⟩
        intro x hx
        simp at hx
        rw [hx]
        exact strLeb_refl s
      | cons r0 rs => simp [listMin] at hw
    | some w =>
      have hrestne : rest ≠ [] := by
        intro hr
        rw [hr] at hw
        simp [listMin] at hw
      obtain ⟨w', hw', hwm, hwb⟩ := ih hrestne
      rw [hw] at hw'
      injection hw' with hww
      rw [← hww] at hwm hwb
      by_cases hsw : strLeb s w = true
      · refine ⟨s, ?_, by simp, ?_⟩
        · simp [listMin, hw, hsw]
        · intro x hx
          rcases List.mem_cons.mp hx with hx | hx
          · rw [hx]; exact strLeb_refl s
          · exact strLeb_trans hsw (hwb x hx)
      · have hsw' : strLeb s w = false := Bool.not_eq_true _ ▸ hsw
        refine ⟨w, ?_, List.mem_cons_of_mem s hwm, ?_⟩
        · simp [listMin, hw, hsw']
        · intro x hx
          rcases List.mem_cons.mp hx with hx | hx
          · rw [hx]; exact strLeb_total hsw'
          · exact hwb x hx

theorem count_le_contaMax {xs : List String} {t : String} (ht : t ∈ xs) :
    xs.count t ≤ contaMax xs := by
  unfold contaMax
  have hmem : xs.count t ∈ xs.map (fun v => xs.count v) := List.mem_map_of_mem _ ht
  generalize xs.map (fun v => xs.count v) = l at hmem
  induction l with
  | nil => simp at hmem
  | cons a tl ih =>
    rcases List.mem_cons.mp hmem with h | h
    · rw [h]; exact Nat.le_max_left _ _
    · exact Nat.le_trans (ih h) (Nat.le_max_right _ _)

theorem exists_count_eq_contaMax {xs : List String} (h : xs ≠ []) :
    ∃ v ∈ xs, xs.count v = contaMax xs := by
  have hattain : contaMax xs ∈ xs.map (fun v => xs.count v) ∨ contaMax xs = 0 := by
    unfold contaMax
    generalize xs.map (fun v => xs.count v) = l
    induction l with
    | nil => right; rfl
    | cons a tl ih =>
      rcases ih with hmem | hzero
      · rcases Nat.le_total a (tl.foldr max 0) with hle | hle
        · left
          rw [List.foldr_cons, Nat.max_eq_right hle]
          exact List.mem_cons_of_mem a hmem
        · left
          rw [List.foldr_cons, Nat.max_eq_left hle]
          exact List.mem_cons_self a tl
      · left
        rw [List.foldr_cons, hzero, Nat.max_eq_left (Nat.zero_le a)]
        exact List.mem_cons_self a tl
  rcases hattain with hmem | hzero
  · obtain ⟨v, hv, hveq⟩ := List.mem_map.mp hmem
    exact ⟨v, hv, hveq⟩
  · obtain ⟨x, hx⟩ := List.exists_mem_of_ne_nil xs h
    have h1 : 0 < xs.count x := List.count_pos_iff.mpr hx
    have h2 : xs.count x ≤ contaMax xs := count_le_contaMax hx
    omega

theorem strMode_spec {xs : List String} (h : xs ≠ []) :
    ∃ s, strMode xs = some s ∧ s ∈ xs ∧
      (∀ t ∈ xs, xs.count t ≤ xs.count s) ∧
      (∀ t ∈ xs, xs.count t = xs.count s → strLeb s t = true) := by
  obtain ⟨v, hv, hveq⟩ := exists_count_eq_contaMax h
  have hvtied : v ∈ (xs.dedup).filter (fun w => xs.count w == contaMax xs) :=
    List.mem_filter.mpr ⟨List.mem_dedup.mpr hv, by simp [hveq]⟩
  obtain ⟨m, hm, hmm, hmb⟩ :=
    listMin_spec _ (List.ne_nil_of_mem hvtied)
  have hmd := List.mem_filter.mp hmm
  have hmx : m ∈ xs := List.mem_dedup.mp hmd.1
  have hmc : xs.count m = contaMax xs := by
    have := hmd.2
    simpa using this
  refine ⟨m, hm, hmx, ?_, ?_⟩
  · intro t ht
    rw [hmc]
    exact count_le_contaMax ht
  · intro t ht htc
    have htied : t ∈ (xs.dedup).filter (fun w => xs.count w == contaMax xs) :=
      List.mem_filter.mpr ⟨List.mem_dedup.mpr ht, by simp [htc, hmc]⟩
    exact hmb t htied

theorem strMode_nil : strMode [] = none := rfl

/- ================= C1 ================= -/

/-- C1: the RFM segmenter assigns segment labels by rules evaluated in
priority order, first match winning: both scores at least 4 gives
"High Value"; else both at least 3 gives "Medium Value"; else both at most 2
gives "Low Value"; every other combination gives "Medium-Low Value"; in
particular frequency-score 5 with monetary-score 2 gives "Medium-Low Value". -/
theorem C1_regole_segmento (f m : ℕ) :
    (assegna_segmento f m = "High Value" ↔ (4 ≤ f ∧ 4 ≤ m)) ∧
    (assegna_segmento f m = "Medium Value" ↔ (¬(4 ≤ f ∧ 4 ≤ m) ∧ (3 ≤ f ∧ 3 ≤ m))) ∧
    (assegna_segmento f m = "Low Value" ↔
      (¬(4 ≤ f ∧ 4 ≤ m) ∧ ¬(3 ≤ f ∧ 3 ≤ m) ∧ (f ≤ 2 ∧ m ≤ 2))) ∧
    (assegna_segmento f m = "Medium-Low Value" ↔
      (¬(4 ≤ f ∧ 4 ≤ m) ∧ ¬(3 ≤ f ∧ 3 ≤ m) ∧ ¬(f ≤ 2 ∧ m ≤ 2))) ∧
    assegna_segmento 5 2 = "Medium-Low Value" := by
  refine ⟨?_, ?_, ?_, ?_, by decide⟩ <;>
    (unfold assegna_segmento; split_ifs with h1 h2 h3 <;> simp_all)

/- ================= C2 ================= -/

theorem aggrega_pagamenti_rows {df : DF} {idc : String}
    (hid : resolve df ["id_ordine", "order_id"] = some idc)
    (hnz : ¬(resolve df ["valore_pagamento_eur", "payment_value", "valore_pagamento"] = none ∧
             resolve df ["sequenza_pagamento", "payment_sequential"] = none ∧
             resolve df ["tipo_pagamento", "payment_type"] = none)) :
    (aggrega_pagamenti df).rows =
      (sortedKeys df idc).map
        (aggRowPag df idc
          (resolve df ["valore_pagamento_eur", "payment_value", "valore_pagamento"])
          (resolve df ["sequenza_pagamento", "payment_sequential"])
          (resolve df ["tipo_pagamento", "payment_type"])) := by
  unfold aggrega_pagamenti
  by_cases hrows : df.rows = []
  · rw [if_pos hrows]
    have hk : sortedKeys df idc = [] := by simp [sortedKeys, hrows, sortVals]
    rw [hk]
    rfl
  · rw [if_neg hrows, hid]
    simp only [if_neg hnz]

theorem get_aggRowPag_tipo {df : DF} {idc : String} {valc seqc : Option String}
    {tc : String} {k : Val} (hne : idc ≠ "tipo_pagamento_principale") :
    Row.get (aggRowPag df idc valc seqc (some tc) k) "tipo_pagamento_principale" =
      (match strMode (strVals ((groupRows df idc k).map (fun r => Row.get r tc))) with
       | some s => Val.vstr s
       | none => Val.vnull) := by
  unfold aggRowPag
  rw [Row.get_cons_ne _ _ _ _ hne]
  rw [Row.get_append_right]
  · exact Row.get_cons_self _ _ _
  · intro kv hkv
    rcases List.mem_append.mp hkv with hkv | hkv
    · cases valc with
      | none => simp at hkv
      | some vc =>
        simp only [List.mem_singleton] at hkv
        rw [hkv]
        simp
    · cases seqc with
      | none => simp at hkv
      | some sc =>
        simp only [List.mem_singleton] at hkv
        rw [hkv]
        simp

theorem get_aggRowPag_id {df : DF} {idc : String} {valc seqc typec : Option String} {k : Val} :
    Row.get (aggRowPag df idc valc seqc typec k) idc = k := by
  unfold aggRowPag
  exact Row.get_cons_self _ _ _

/-- C2 (amended): in the payments aggregation the per-order principal
payment type is the most frequent non-null value of the payment-type column
within the order's rows; when several values are tied for the highest
frequency the result is the least tied value in ascending lexicographic
order (pandas `mode` sorts the tied values and the source takes its first
element), not the first value in row order; and when the group has no
non-null type value the result is null (`None`), not a string sentinel. -/
theorem C2_tipo_pagamento_principale (df : DF) (idc tc : String)
    (hid : resolve df ["id_ordine", "order_id"] = some idc)
    (htc : resolve df ["tipo_pagamento", "payment_type"] = some tc) :
    ∀ r ∈ (aggrega_pagamenti df).rows,
      Row.get r idc ≠ Val.vnull ∧
      ((strVals ((groupRows df idc (Row.get r idc)).map (fun g => Row.get g tc)) = [] ∧
        Row.get r "tipo_pagamento_principale" = Val.vnull) ∨
       (∃ s, Row.get r "tipo_pagamento_principale" = Val.vstr s ∧
         s ∈ strVals ((groupRows df idc (Row.get r idc)).map (fun g => Row.get g tc)) ∧
         (∀ t ∈ strVals ((groupRows df idc (Row.get r idc)).map (fun g => Row.get g tc)),
           (strVals ((groupRows df idc (Row.get r idc)).map (fun g => Row.get g tc))).count t ≤
           (strVals ((groupRows df idc (Row.get r idc)).map (fun g => Row.get g tc))).count s) ∧
         (∀ t ∈ strVals ((groupRows df idc (Row.get r idc)).map (fun g => Row.get g tc)),
           (strVals ((groupRows df idc (Row.get r idc)).map (fun g => Row.get g tc))).count t =
           (strVals ((groupRows df idc (Row.get r idc)).map (fun g => Row.get g tc))).count s →
           strLeb s t = true))) := by
  intro r hr
  have hnz : ¬(resolve df ["valore_pagamento_eur", "payment_value", "valore_pagamento"] = none ∧
      resolve df ["sequenza_pagamento", "payment_sequential"] = none ∧
      resolve df ["tipo_pagamento", "payment_type"] = none) := by
    rw [htc]
    simp
  rw [aggrega_pagamenti_rows hid hnz, htc] at hr
  obtain ⟨k, hk, hkr⟩ := List.mem_map.mp hr
  have hidne : idc ≠ "tipo_pagamento_principale" := by
    have := resolve_mem_cands hid
    simp only [List.mem_cons, List.not_mem_nil, or_false] at this
    rcases this with h | h <;> (rw [h]; decide)
  have hgid : Row.get r idc = k := by rw [← hkr]; exact get_aggRowPag_id
  have hgt := @get_aggRowPag_tipo df idc
      (resolve df ["valore_pagamento_eur", "payment_value", "valore_pagamento"])
      (resolve df ["sequenza_pagamento", "payment_sequential"]) tc k hidne
  rw [hkr] at hgt
  constructor
  · rw [hgid]
    exact (mem_sortedKeys.mp hk).2
  · rw [hgid]
    by_cases htv : strVals ((groupRows df idc k).map (fun g => Row.get g tc)) = []
    · left
      refine ⟨htv, ?_⟩
      rw [hgt, htv, strMode_nil]
    · right
      obtain ⟨s, hs, hmem, hmax, htie⟩ := strMode_spec htv
      exact ⟨s, by rw [hgt, hs], hmem, hmax, htie⟩

/-- C2 counterexample: in `dfPagTie` order "o1" has payment types
["voucher", "boleto"] in row order (a tie); the code yields "boleto" (the
lexicographically least tied value), not the first-encountered "voucher";
and order "o2", whose type slice is all null, yields null rather than the
string "undefined". -/
theorem C2_tie_break_cex :
    dfPagTie.rows.map (fun r => Row.get r "payment_type") =
      [Val.vstr "voucher", Val.vstr "boleto", Val.vnull] ∧
    (aggrega_pagamenti dfPagTie).rows.map (fun r => Row.get r "order_id") =
      [Val.vstr "o1", Val.vstr "o2"] ∧
    (aggrega_pagamenti dfPagTie).rows.map (fun r => Row.get r "tipo_pagamento_principale") =
      [Val.vstr "boleto", Val.vnull] ∧
    Val.vstr "boleto" ≠ Val.vstr "voucher" ∧ Val.vnull ≠ Val.vstr "undefined" := by
  refine ⟨by decide, by decide, by decide, by decide, by decide⟩

/-- Witness for C2: the amended theorem applied to the concrete payments
table `dfPagTie`. -/
theorem C2_tipo_pagamento_principale_witness :
    resolve dfPagTie ["id_ordine", "order_id"] = some "order_id" ∧
    resolve dfPagTie ["tipo_pagamento", "payment_type"] = some "payment_type" ∧
    ∀ r ∈ (aggrega_pagamenti dfPagTie).rows,
      Row.get r "order_id" ≠ Val.vnull ∧
      ((strVals ((groupRows dfPagTie "order_id" (Row.get r "order_id")).map
          (fun g => Row.get g "payment_type")) = [] ∧
        Row.get r "tipo_pagamento_principale" = Val.vnull) ∨
       (∃ s, Row.get r "tipo_pagamento_principale" = Val.vstr s ∧
         s ∈ strVals ((groupRows dfPagTie "order_id" (Row.get r "order_id")).map
             (fun g => Row.get g "payment_type")) ∧
         (∀ t ∈ strVals ((groupRows dfPagTie "order_id" (Row.get r "order_id")).map
             (fun g => Row.get g "payment_type")),
           (strVals ((groupRows dfPagTie "order_id" (Row.get r "order_id")).map
             (fun g => Row.get g "payment_type"))).count t ≤
           (strVals ((groupRows dfPagTie "order_id" (Row.get r "order_id")).map
             (fun g => Row.get g "payment_type"))).count s) ∧
         (∀ t ∈ strVals ((groupRows dfPagTie "order_id" (Row.get r "order_id")).map
             (fun g => Row.get g "payment_type")),
           (strVals ((groupRows dfPagTie "order_id" (Row.get r "order_id")).map
             (fun g => Row.get g "payment_type"))).count t =
           (strVals ((groupRows dfPagTie "order_id" (Row.get r "order_id")).map
             (fun g => Row.get g "payment_type"))).count s →
           strLeb s t = true))) :=
  ⟨by decide, by decide,
   C2_tipo_pagamento_principale dfPagTie "order_id" "payment_type" (by decide) (by decide)⟩

/- ================= C5 ================= -/

/-- C5 (amended): the payments aggregation returns an empty result (and does
not raise — the embedded function is total) exactly on the soft-failure
paths; in particular, when no candidate payment-value column, no
payment-sequential column and no payment-type column can be resolved, the
result is empty.  A missing value column alone does not make the result
empty (see the counterexample). -/
theorem C5_aggrega_senza_colonne (df : DF)
    (hval : resolve df ["valore_pagamento_eur", "payment_value", "valore_pagamento"] = none)
    (hseq : resolve df ["sequenza_pagamento", "payment_sequential"] = none)
    (htyp : resolve df ["tipo_pagamento", "payment_type"] = none) :
    aggrega_pagamenti df = DF.empty := by
  unfold aggrega_pagamenti
  by_cases hrows : df.rows = []
  · rw [if_pos hrows]
  · rw [if_neg hrows]
    cases hid : resolve df ["id_ordine", "order_id"] with
    | none => rfl
    | some idc => simp [hval, hseq, htyp]

/-- C5 counterexample: `dfPagSenzaValore` has no candidate payment-value
column, yet the aggregation is not empty, because the payment-type column
alone is enough to populate `agg_dict`. -/
theorem C5_senza_valore_cex :
    (∀ c ∈ (["valore_pagamento_eur", "payment_value", "valore_pagamento"] : List String),
      c ∉ dfPagSenzaValore.cols) ∧
    (aggrega_pagamenti dfPagSenzaValore).rows ≠ [] ∧
    aggrega_pagamenti dfPagSenzaValore ≠ DF.empty := by
  refine ⟨by decide, by decide, by decide⟩

/-- Witness for C5: the amended theorem applied to a payments table with
only an order identifier. -/
theorem C5_aggrega_senza_colonne_witness :
    resolve dfPagSoloId ["valore_pagamento_eur", "payment_value", "valore_pagamento"] = none ∧
    resolve dfPagSoloId ["sequenza_pagamento", "payment_sequential"] = none ∧
    resolve dfPagSoloId ["tipo_pagamento", "payment_type"] = none ∧
    aggrega_pagamenti dfPagSoloId = DF.empty :=
  ⟨by decide, by decide, by decide,
   C5_aggrega_senza_colonne dfPagSoloId (by decide) (by decide) (by decide)⟩

/- ================= C4 ================= -/

/-- C4: if the customer-identifier column, the order-identifier column, the
purchase-timestamp column, or every candidate monetary column is absent, the
segmenter computes nothing: it returns the original table unchanged together
with an empty segmentation result (and does not raise — the embedded
function is total). -/
theorem C4_segmenta_colonne_mancanti (df : DF)
    (h : resolve df ["id_cliente", "customer_id"] = none ∨
         resolve df ["id_ordine", "order_id"] = none ∨
         resolve df ["totale_ordine_eur", "valore_pagamento_eur", "pagamento_totale"] = none ∨
         resolve df ["data_acquisto", "order_purchase_timestamp"] = none) :
    segmenta_clienti df = (df, DF.empty) := by
  unfold segmenta_clienti
  rcases hic : resolve df ["id_cliente", "customer_id"] with - | ic <;>
    rcases hio : resolve df ["id_ordine", "order_id"] with - | io <;>
      rcases hvc : resolve df ["totale_ordine_eur", "valore_pagamento_eur", "pagamento_totale"]
        with - | vc <;>
        rcases hdc : resolve df ["data_acquisto", "order_purchase_timestamp"] with - | dc <;>
          simp_all

/-- Witness for C4: a table missing the monetary and purchase-date columns
is returned unchanged with an empty segmentation. -/
theorem C4_segmenta_colonne_mancanti_witness :
    (resolve dfSenzaData ["id_cliente", "customer_id"] = none ∨
     resolve dfSenzaData ["id_ordine", "order_id"] = none ∨
     resolve dfSenzaData ["totale_ordine_eur", "valore_pagamento_eur", "pagamento_totale"] = none ∨
     resolve dfSenzaData ["data_acquisto", "order_purchase_timestamp"] = none) ∧
    segmenta_clienti dfSenzaData = (dfSenzaData, DF.empty) :=
  ⟨Or.inr (Or.inr (Or.inl (by decide))),
   C4_segmenta_colonne_mancanti dfSenzaData (Or.inr (Or.inr (Or.inl (by decide))))⟩

/- ================= C3 ================= -/

theorem segmenta_clienti_eq {df : DF} {ic io vc dc : String}
    (hic : resolve df ["id_cliente", "customer_id"] = some ic)
    (hio : resolve df ["id_ordine", "order_id"] = some io)
    (hvc : resolve df ["totale_ordine_eur", "valore_pagamento_eur", "pagamento_totale"] = some vc)
    (hdc : resolve df ["data_acquisto", "order_purchase_timestamp"] = some dc) :
    segmenta_clienti df = (df, statsDF df ic io vc dc) := by
  unfold segmenta_clienti
  rw [hic, hio, hvc, hdc]

theorem get_statsRow_append_id (df : DF) (ic io vc dc : String) (k : Val) (e : Row) :
    Row.get (statsRow df ic io vc dc k ++ e) "id_cliente" = k := by
  simp only [statsRow]
  rw [List.cons_append, Row.get_cons_self]

theorem statsDF_ids (df : DF) (ic io vc dc : String) :
    (statsDF df ic io vc dc).rows.map (fun r => Row.get r "id_cliente") = sortedKeys df ic := by
  simp only [statsDF, List.map_map]
  have hcongr : ∀ k ∈ sortedKeys df ic,
      ((fun r => Row.get r "id_cliente") ∘ (fun k =>
        statsRow df ic io vc dc k ++
        (if (qcutEdges ((sortedKeys df ic).map
              (fun k => sumNums ((groupRows df ic k).map (fun r => Row.get r vc))))).length = 4
         then
           [("segmento_valore",
             valCat (qcutEdges ((sortedKeys df ic).map
               (fun k => sumNums ((groupRows df ic k).map (fun r => Row.get r vc)))))
               (sumNums ((groupRows df ic k).map (fun r => Row.get r vc))))]
         else []))) k = k := by
    intro k _
    simp only [Function.comp_apply]
    exact get_statsRow_append_id df ic io vc dc k _
  rw [List.map_congr_left hcongr]
  simp

/-- C3: for every unified table on which the segmenter runs (all four needed
columns resolvable), the segmentation output has exactly one row per
distinct (non-null) customer identifier present in the input — its
identifier list is duplicate-free and contains exactly the input's customer
identifiers — the original order table is returned unchanged (no order row
dropped, also for single-order customers), and after the spec's broadcast
step every order row carries the segment of the unique statistics row of its
owning customer. -/
theorem C3_segmentazione_completa (df : DF) (ic io vc dc : String)
    (hic : resolve df ["id_cliente", "customer_id"] = some ic)
    (hio : resolve df ["id_ordine", "order_id"] = some io)
    (hvc : resolve df ["totale_ordine_eur", "valore_pagamento_eur", "pagamento_totale"] = some vc)
    (hdc : resolve df ["data_acquisto", "order_purchase_timestamp"] = some dc) :
    (segmenta_clienti df).1 = df ∧
    ((segmenta_clienti df).2.rows.map (fun r => Row.get r "id_cliente")).Nodup ∧
    (∀ v : Val, v ≠ Val.vnull →
      (v ∈ df.rows.map (fun r => Row.get r ic) ↔
       v ∈ (segmenta_clienti df).2.rows.map (fun r => Row.get r "id_cliente"))) ∧
    (broadcast_segmento df (segmenta_clienti df).2 ic "segmento_frequenza").rows.length =
      df.rows.length ∧
    (∀ i : ℕ, ∀ r, df.rows[i]? = some r → Row.get r ic ≠ Val.vnull →
      ∃ r' s,
        (broadcast_segmento df (segmenta_clienti df).2 ic "segmento_frequenza").rows[i]? =
          some r' ∧
        s ∈ (segmenta_clienti df).2.rows ∧
        Row.get s "id_cliente" = Row.get r ic ∧
        Row.get r' "segmento_frequenza" = Row.get s "segmento_frequenza") := by
  rw [segmenta_clienti_eq hic hio hvc hdc]
  refine ⟨rfl, ?_, ?_, ?_, ?_⟩
  · rw [statsDF_ids]
    exact sortedKeys_nodup df ic
  · intro v hv
    rw [statsDF_ids, mem_sortedKeys]
    exact ⟨fun h => ⟨h, hv⟩, fun h => h.1⟩
  · simp [broadcast_segmento]
  · intro i r hi hvnull
    have hrmem : r ∈ df.rows := by
      have := List.getElem?_eq_some_iff.mp hi
      obtain ⟨hlt, hget⟩ := this
      exact hget ▸ List.getElem_mem hlt
    have hkmem : Row.get r ic ∈
        (statsDF df ic io vc dc).rows.map (fun s => Row.get s "id_cliente") := by
      rw [statsDF_ids, mem_sortedKeys]
      exact ⟨List.mem_map_of_mem _ hrmem, hvnull⟩
    obtain ⟨s1, hs1m, hs1e⟩ := List.mem_map.mp hkmem
    have hfind : ((statsDF df ic io vc dc).rows.find?
        (fun s => Row.get s "id_cliente" == Row.get r ic)).isSome := by
      rw [List.find?_isSome]
      exact ⟨s1, hs1m, by simp [hs1e]⟩
    obtain ⟨s0, hs0⟩ := Option.isSome_iff_exists.mp hfind
    have hs0m : s0 ∈ (statsDF df ic io vc dc).rows := List.mem_of_find?_eq_some hs0
    have hs0e : Row.get s0 "id_cliente" = Row.get r ic := by
      have := List.find?_some hs0
      simpa using this
    refine ⟨Row.set r "segmento_frequenza" (Row.get s0 "segmento_frequenza"), s0, ?_, hs0m,
      hs0e, ?_⟩
    · simp only [broadcast_segmento, List.getElem?_map, hi, Option.map_some', hs0]
    · exact Row.get_set_self r _ _

/-- Witness for C3: the theorem applied to the concrete unified table
`dfUnificato`. -/
theorem C3_segmentazione_completa_witness :
    resolve dfUnificato ["id_cliente", "customer_id"] = some "id_cliente" ∧
    resolve dfUnificato ["id_ordine", "order_id"] = some "id_ordine" ∧
    resolve dfUnificato ["totale_ordine_eur", "valore_pagamento_eur", "pagamento_totale"] =
      some "pagamento_totale" ∧
    resolve dfUnificato ["data_acquisto", "order_purchase_timestamp"] = some "data_acquisto" ∧
    ((segmenta_clienti dfUnificato).1 = dfUnificato ∧
     ((segmenta_clienti dfUnificato).2.rows.map (fun r => Row.get r "id_cliente")).Nodup ∧
     (∀ v : Val, v ≠ Val.vnull →
       (v ∈ dfUnificato.rows.map (fun r => Row.get r "id_cliente") ↔
        v ∈ (segmenta_clienti dfUnificato).2.rows.map (fun r => Row.get r "id_cliente"))) ∧
     (broadcast_segmento dfUnificato (segmenta_clienti dfUnificato).2 "id_cliente"
        "segmento_frequenza").rows.length = dfUnificato.rows.length ∧
     (∀ i : ℕ, ∀ r, dfUnificato.rows[i]? = some r →
       Row.get r "id_cliente" ≠ Val.vnull →
       ∃ r' s,
         (broadcast_segmento dfUnificato (segmenta_clienti dfUnificato).2 "id_cliente"
            "segmento_frequenza").rows[i]? = some r' ∧
         s ∈ (segmenta_clienti dfUnificato).2.rows ∧
         Row.get s "id_cliente" = Row.get r "id_cliente" ∧
         Row.get r' "segmento_frequenza" = Row.get s "segmento_frequenza")) :=
  ⟨by decide, by decide, by decide, by decide,
   C3_segmentazione_completa dfUnificato "id_cliente" "id_ordine" "pagamento_totale"
     "data_acquisto" (by decide) (by decide) (by decide) (by decide)⟩

/- ================= C6 / C10 ================= -/

theorem chain_head_le_getLast :
    ∀ (a : WithTop ℚ) (l : List (WithTop ℚ)), List.Chain' (· < ·) (a :: l) →
      ∀ m, (a :: l).getLast? = some m → a ≤ m := by
  intro a l
  induction l generalizing a with
  | nil =>
    intro _ m hm
    simp only [List.getLast?_singleton, Option.some.injEq] at hm
    exact le_of_eq hm
  | cons b t ih =>
    intro hchain m hm
    have hab : a < b := (List.chain'_cons.mp hchain).1
    have hbt : List.Chain' (· < ·) (b :: t) := (List.chain'_cons.mp hchain).2
    rw [List.getLast?_cons_cons] at hm
    exact le_of_lt (lt_of_lt_of_le hab (ih b hbt m hm))

theorem chain_mem_le_getLast :
    ∀ (l : List (WithTop ℚ)), List.Chain' (· < ·) l →
      ∀ m a, l.getLast? = some m → a ∈ l → a ≤ m := by
  intro l
  induction l with
  | nil => intro _ m a _ ha; simp at ha
  | cons b t ih =>
    intro hchain m a hm ha
    rcases List.mem_cons.mp ha with ha | ha
    · rw [ha]
      exact chain_head_le_getLast b t hchain m hm
    · cases t with
      | nil => simp at ha
      | cons c u =>
        rw [List.getLast?_cons_cons] at hm
        exact ih hchain.tail m a hm ha

theorem cutGo_some (x : ℚ) :
    ∀ (rest : List (WithTop ℚ)) (labels : List String) (lo : WithTop ℚ) (first : Bool),
      List.Chain' (· < ·) (lo :: rest) →
      rest.length = labels.length →
      rest ≠ [] →
      ((first = true ∧ lo ≤ (x : WithTop ℚ)) ∨ lo < (x : WithTop ℚ)) →
      (∀ m, rest.getLast? = some m → (x : WithTop ℚ) ≤ m) →
      ∃ lab ∈ labels, cutGo x lo first rest labels = some lab := by
  intro rest
  induction rest with
  | nil => intro labels lo first _ _ hne; exact absurd rfl hne
  | cons hi rtl ih =>
    intro labels lo first hchain hlen hne hlo hlast
    cases labels with
    | nil => simp at hlen
    | cons lab ls =>
      by_cases hxhi : (x : WithTop ℚ) ≤ hi
      · have hcond : (if first then lo ≤ (x : WithTop ℚ) else lo < (x : WithTop ℚ)) ∧
            (x : WithTop ℚ) ≤ hi := by
          refine ⟨?_, hxhi⟩
          cases first
          · rcases hlo with ⟨hf, _⟩ | h
            · exact absurd hf (by simp)
            · simpa using h
          · rcases hlo with ⟨_, h⟩ | h
            · simpa using h
            · simpa using le_of_lt h
        exact ⟨lab, by simp, by simp [cutGo, hcond]⟩
      · have hhix : hi < (x : WithTop ℚ) := lt_of_not_le hxhi
        have hcond : ¬((if first then lo ≤ (x : WithTop ℚ) else lo < (x : WithTop ℚ)) ∧
            (x : WithTop ℚ) ≤ hi) := fun hc => hxhi hc.2
        cases hrtl : rtl with
        | nil =>
          exfalso
          apply hxhi
          apply hlast hi
          rw [hrtl]
          rfl
        | cons r2 t2 =>
          rw [← hrtl]
          have hlen' : rtl.length = ls.length := by simpa using hlen
          have hne' : rtl ≠ [] := by rw [hrtl]; simp
          have hlast' : ∀ m, rtl.getLast? = some m → (x : WithTop ℚ) ≤ m := by
            intro m hm
            apply hlast
            rw [hrtl] at hm ⊢
            rw [List.getLast?_cons_cons]
            exact hm
          obtain ⟨lab', hlab', heq⟩ :=
            ih ls hi false hchain.tail hlen' hne' (Or.inr hhix) hlast'
          exact ⟨lab', by simp [hlab'], by simp [cutGo, hcond, heq]⟩

theorem cutGo_below (x : ℚ) :
    ∀ (rest : List (WithTop ℚ)) (labels : List String) (lo : WithTop ℚ) (first : Bool),
      List.Chain' (· < ·) (lo :: rest) →
      (x : WithTop ℚ) < lo →
      cutGo x lo first rest labels = none := by
  intro rest
  induction rest with
  | nil => intro labels lo first _ _; cases labels <;> rfl
  | cons hi rtl ih =>
    intro labels lo first hchain hxlo
    cases labels with
    | nil => rfl
    | cons lab ls =>
      have h1 : ¬((if first then lo ≤ (x : WithTop ℚ) else lo < (x : WithTop ℚ)) ∧
          (x : WithTop ℚ) ≤ hi) := by
        intro hc
        cases first
        · simp only [if_neg Bool.false_ne_true] at hc
          exact absurd hc.1 (lt_asymm hxlo)
        · simp only [if_pos rfl] at hc
          exact absurd hc.1 (not_le_of_lt hxlo)
      have hlohi : lo < hi := (List.chain'_cons.mp hchain).1
      simp only [cutGo, if_neg h1]
      exact ih ls hi false hchain.tail (hxlo.trans hlohi)

theorem cutGo_above (x : ℚ) :
    ∀ (rest : List (WithTop ℚ)) (labels : List String) (lo : WithTop ℚ) (first : Bool),
      (∀ m ∈ rest, m < (x : WithTop ℚ)) →
      cutGo x lo first rest labels = none := by
  intro rest
  induction rest with
  | nil => intro labels lo first _; cases labels <;> rfl
  | cons hi rtl ih =>
    intro labels lo first hm
    cases labels with
    | nil => rfl
    | cons lab ls =>
      have hhix : hi < (x : WithTop ℚ) := hm hi (by simp)
      have h1 : ¬((if first then lo ≤ (x : WithTop ℚ) else lo < (x : WithTop ℚ)) ∧
          (x : WithTop ℚ) ≤ hi) := fun hc => absurd hc.2 (not_le_of_lt hhix)
      simp only [cutGo, if_neg h1]
      exact ih ls hi false (fun m hm2 => hm m (List.mem_cons_of_mem hi hm2))

/-- C6: for every table with the target numeric column present, a strictly
increasing edge list, and a label list one shorter than the edge list, the
binner assigns every non-null numeric value within the outer edges
(minimum edge inclusive, so the minimum value is never left null) exactly
one label from the label list; values outside the outer edges and null
cells map to a null category; the embedded operation is total (never
raises). -/
theorem C6_binning_copertura (df : DF) (colonna : String) (bins : List (WithTop ℚ))
    (labels : List String) (nome_output : Option String) (lo hi : WithTop ℚ)
    (hcol : colonna ∈ df.cols)
    (hchain : List.Chain' (· < ·) bins)
    (hlen : bins.length = labels.length + 1)
    (hne : labels ≠ [])
    (hhead : bins.head? = some lo)
    (hlast : bins.getLast? = some hi) :
    ∀ i : ℕ, ∀ r, df.rows[i]? = some r →
      ∃ r', (crea_categorie_binning df colonna bins labels nome_output).rows[i]? = some r' ∧
        (∀ x : ℚ, Row.get r colonna = Val.vnum x →
          ((lo ≤ (x : WithTop ℚ) ∧ (x : WithTop ℚ) ≤ hi) →
            ∃ lab ∈ labels,
              Row.get r' (nome_output.getD (colonna ++ "_cat")) = Val.vstr lab) ∧
          (((x : WithTop ℚ) < lo ∨ hi < (x : WithTop ℚ)) →
            Row.get r' (nome_output.getD (colonna ++ "_cat")) = Val.vnull)) ∧
        (Row.get r colonna = Val.vnull →
          Row.get r' (nome_output.getD (colonna ++ "_cat")) = Val.vnull) := by
  intro i r hi0
  obtain ⟨blo, brest, hbins⟩ : ∃ blo brest, bins = blo :: brest := by
    cases bins with
    | nil => simp at hhead
    | cons b bb => exact ⟨b, bb, rfl⟩
  subst hbins
  have hblo : blo = lo := by simpa using hhead
  subst hblo
  have hrowne : crea_categorie_binning df colonna (blo :: brest) labels nome_output =
      df.addColWith (nome_output.getD (colonna ++ "_cat"))
        (fun r =>
          match Row.get r colonna with
          | .vnum x =>
            match pdCut true (blo :: brest) labels x with
            | some lab => Val.vstr lab
            | none => Val.vnull
          | _ => Val.vnull) := by
    unfold crea_categorie_binning
    rw [if_neg (not_not_intro hcol)]
  refine ⟨Row.set r (nome_output.getD (colonna ++ "_cat"))
      (match Row.get r colonna with
       | .vnum x =>
         match pdCut true (blo :: brest) labels x with
         | some lab => Val.vstr lab
         | none => Val.vnull
       | _ => Val.vnull), ?_, ?_, ?_⟩
  · rw [hrowne]
    simp only [DF.addColWith, List.getElem?_map, hi0, Option.map_some']
  · intro x hx
    constructor
    · intro ⟨hxlo, hxhi⟩
      have hrest_ne : brest ≠ [] := by
        intro hr
        rw [hr] at hlen
        simp at hlen
        exact hne hlen
      have hlen' : brest.length = labels.length := by simpa using hlen
      have hlastm : ∀ m, brest.getLast? = some m → (x : WithTop ℚ) ≤ m := by
        intro m hm
        cases hbr : brest with
        | nil => exact absurd hbr hrest_ne
        | cons b2 t2 =>
          rw [hbr] at hm
          rw [hbr, List.getLast?_cons_cons] at hlast
          rw [hlast] at hm
          injection hm with hm
          rw [← hm]
          exact hxhi
      obtain ⟨lab, hlabm, hcut⟩ :=
        cutGo_some x brest labels blo true hchain hlen' hrest_ne (Or.inl ⟨rfl, hxlo⟩) hlastm
      refine ⟨lab, hlabm, ?_⟩
      rw [Row.get_set_self]
      rw [hx]
      simp only [pdCut, hcut]
    · intro hout
      rw [Row.get_set_self, hx]
      rcases hout with hout | hout
      · simp only [pdCut, cutGo_below x brest labels blo true hchain hout]
      · have habove : ∀ m ∈ brest, m < (x : WithTop ℚ) := by
          intro m hm
          have hle : m ≤ hi :=
            chain_mem_le_getLast (blo :: brest) hchain hi m hlast
              (List.mem_cons_of_mem blo hm)
          exact lt_of_le_of_lt hle hout
        simp only [pdCut, cutGo_above x brest labels blo true habove]
  · intro hx
    rw [Row.get_set_self, hx]

/-- Witness for C6: the theorem applied to the concrete price table with the
`BINNING_CONFIG['valore_ordine']`-style finite edges `[0, 50, 150, 300]`. -/
theorem C6_binning_copertura_witness :
    ("prezzo" ∈ dfPrezzi.cols) ∧
    List.Chain' (· < ·)
      [((0 : ℚ) : WithTop ℚ), ((50 : ℚ) : WithTop ℚ),
       ((150 : ℚ) : WithTop ℚ), ((300 : ℚ) : WithTop ℚ)] ∧
    ([((0 : ℚ) : WithTop ℚ), ((50 : ℚ) : WithTop ℚ),
      ((150 : ℚ) : WithTop ℚ), ((300 : ℚ) : WithTop ℚ)].length =
      (["Basso", "Medio", "Alto"] : List String).length + 1) ∧
    (["Basso", "Medio", "Alto"] : List String) ≠ [] ∧
    (∀ i : ℕ, ∀ r, dfPrezzi.rows[i]? = some r →
      ∃ r', (crea_categorie_binning dfPrezzi "prezzo"
          [((0 : ℚ) : WithTop ℚ), ((50 : ℚ) : WithTop ℚ),
           ((150 : ℚ) : WithTop ℚ), ((300 : ℚ) : WithTop ℚ)]
          ["Basso", "Medio", "Alto"] none).rows[i]? = some r' ∧
        (∀ x : ℚ, Row.get r "prezzo" = Val.vnum x →
          ((((0 : ℚ) : WithTop ℚ) ≤ (x : WithTop ℚ) ∧
            (x : WithTop ℚ) ≤ ((300 : ℚ) : WithTop ℚ)) →
            ∃ lab ∈ (["Basso", "Medio", "Alto"] : List String),
              Row.get r' (Option.getD none ("prezzo" ++ "_cat")) = Val.vstr lab) ∧
          (((x : WithTop ℚ) < ((0 : ℚ) : WithTop ℚ) ∨
            ((300 : ℚ) : WithTop ℚ) < (x : WithTop ℚ)) →
            Row.get r' (Option.getD none ("prezzo" ++ "_cat")) = Val.vnull)) ∧
        (Row.get r "prezzo" = Val.vnull →
          Row.get r' (Option.getD none ("prezzo" ++ "_cat")) = Val.vnull)) := by
  have hchain : List.Chain' (· < ·)
      [((0 : ℚ) : WithTop ℚ), ((50 : ℚ) : WithTop ℚ),
       ((150 : ℚ) : WithTop ℚ), ((300 : ℚ) : WithTop ℚ)] := by
    simp only [List.chain'_cons, List.chain'_singleton, and_true]
    refine ⟨?_, ?_, ?_⟩ <;> exact WithTop.coe_lt_coe.mpr (by norm_num)
  exact ⟨by decide, hchain, by decide, by decide,
    C6_binning_copertura dfPrezzi "prezzo"
      [((0 : ℚ) : WithTop ℚ), ((50 : ℚ) : WithTop ℚ),
       ((150 : ℚ) : WithTop ℚ), ((300 : ℚ) : WithTop ℚ)]
      ["Basso", "Medio", "Alto"] none ((0 : ℚ) : WithTop ℚ) ((300 : ℚ) : WithTop ℚ)
      (by decide) hchain (by decide) (by decide) rfl rfl⟩

/-- C10: when the target column is absent the binner returns its input
unchanged — no category column is added, nothing is altered, and the
embedded operation is total (does not raise). -/
theorem C10_binning_colonna_assente (df : DF) (colonna : String) (bins : List (WithTop ℚ))
    (labels : List String) (nome_output : Option String) (h : colonna ∉ df.cols) :
    crea_categorie_binning df colonna bins labels nome_output = df := by
  unfold crea_categorie_binning
  rw [if_pos h]

/-- Witness for C10: binning on a column that the price table lacks returns
the table unchanged. -/
theorem C10_binning_colonna_assente_witness :
    ("peso_prodotto_g" ∉ dfPrezzi.cols) ∧
    crea_categorie_binning dfPrezzi "peso_prodotto_g"
      [((0 : ℚ) : WithTop ℚ), ⊤] ["Leggero"] none = dfPrezzi :=
  ⟨by decide,
   C10_binning_colonna_assente dfPrezzi "peso_prodotto_g"
     [((0 : ℚ) : WithTop ℚ), ⊤] ["Leggero"] none (by decide)⟩

/- ================= C9 ================= -/

theorem addColWith_row {df : DF} {c : String} {f : Row → Val} {i : ℕ} {r : Row}
    (hi : df.rows[i]? = some r) :
    (df.addColWith c f).rows[i]? = some (Row.set r c (f r)) := by
  simp only [DF.addColWith, List.getElem?_map, hi, Option.map_some']

theorem calcolaRitardo_get {d : DF} {i : ℕ} {r : Row} (hi : d.rows[i]? = some r) :
    ∃ r', (calcolaRitardoConsegna d).rows[i]? = some r' ∧
      Row.get r' "giorni_consegna" = Row.get r "giorni_consegna" := by
  unfold calcolaRitardoConsegna
  split
  · exact ⟨_, addColWith_row hi, Row.get_set_ne _ _ _ _ (by decide)⟩
  · exact ⟨r, hi, rfl⟩

theorem calcolaCalendario_get {d : DF} {i : ℕ} {r : Row} (hi : d.rows[i]? = some r) :
    ∃ r', (calcolaCalendario d).rows[i]? = some r' ∧
      Row.get r' "giorni_consegna" = Row.get r "giorni_consegna" := by
  unfold calcolaCalendario
  split
  · refine ⟨_, addColWith_row (addColWith_row (addColWith_row hi)), ?_⟩
    rw [Row.get_set_ne _ _ _ _ (by decide), Row.get_set_ne _ _ _ _ (by decide),
      Row.get_set_ne _ _ _ _ (by decide)]
  · exact ⟨r, hi, rfl⟩

/-- C9 (amended): the temporal feature calculator computes no
approval-to-shipment duration (see the counterexample); the duration it does
derive between two raw timestamps is `giorni_consegna`: for every table with
the delivery and purchase timestamp columns present, each row gets
`giorni_consegna` equal to delivery minus purchase in whole days when both
endpoints are non-null, and null when an endpoint is null; existing columns
are not consulted beyond that and the operation is total. -/
theorem C9_giorni_consegna (df : DF)
    (hcons : "data_consegna" ∈ df.cols) (hacq : "data_acquisto" ∈ df.cols) :
    ∀ i : ℕ, ∀ r, df.rows[i]? = some r →
      ∃ r', (calcola_metriche_temporali df).rows[i]? = some r' ∧
        (∀ a b : ℤ, Row.get r "data_consegna" = Val.vdate a →
          Row.get r "data_acquisto" = Val.vdate b →
          Row.get r' "giorni_consegna" = Val.vnum ((a - b : ℤ) : ℚ)) ∧
        ((Row.get r "data_consegna" = Val.vnull ∨ Row.get r "data_acquisto" = Val.vnull) →
          Row.get r' "giorni_consegna" = Val.vnull) := by
  intro i r hi
  have h1 : (calcolaGiorniConsegna df).rows[i]? =
      some (Row.set r "giorni_consegna"
        (diffDays (Row.get r "data_consegna") (Row.get r "data_acquisto"))) := by
    unfold calcolaGiorniConsegna
    rw [if_pos ⟨hcons, hacq⟩]
    exact addColWith_row hi
  obtain ⟨r2, h2, h2g⟩ := calcolaRitardo_get h1
  obtain ⟨r3, h3, h3g⟩ := calcolaCalendario_get h2
  have hget : Row.get r3 "giorni_consegna" =
      diffDays (Row.get r "data_consegna") (Row.get r "data_acquisto") := by
    rw [h3g, h2g, Row.get_set_self]
  refine ⟨r3, h3, ?_, ?_⟩
  · intro a b ha hb
    rw [hget, ha, hb]
    rfl
  · intro hnull
    rcases hnull with hnull | hnull
    · rw [hget, hnull]
      rfl
    · rw [hget, hnull]
      unfold diffDays
      cases Row.get r "data_consegna" <;> rfl

/-- C9 counterexample: on a table that has exactly the approval and
carrier-handoff timestamp columns, the temporal feature calculator returns
its input unchanged — no approval-to-shipment duration column (and no other
column) is produced. -/
theorem C9_approvazione_spedizione_cex :
    ("data_approvazione" ∈ dfApprovSped.cols) ∧
    ("data_spedizione" ∈ dfApprovSped.cols) ∧
    calcola_metriche_temporali dfApprovSped = dfApprovSped ∧
    dfApprovSped.cols = ["data_approvazione", "data_spedizione"] := by
  refine ⟨by decide, by decide, by decide, by decide⟩

/-- Witness for C9: the amended theorem applied to the concrete delivery
table (one row with both endpoints, one row with a null delivery). -/
theorem C9_giorni_consegna_witness :
    ("data_consegna" ∈ dfConsegne.cols) ∧ ("data_acquisto" ∈ dfConsegne.cols) ∧
    (∀ i : ℕ, ∀ r, dfConsegne.rows[i]? = some r →
      ∃ r', (calcola_metriche_temporali dfConsegne).rows[i]? = some r' ∧
        (∀ a b : ℤ, Row.get r "data_consegna" = Val.vdate a →
          Row.get r "data_acquisto" = Val.vdate b →
          Row.get r' "giorni_consegna" = Val.vnum ((a - b : ℤ) : ℚ)) ∧
        ((Row.get r "data_consegna" = Val.vnull ∨ Row.get r "data_acquisto" = Val.vnull) →
          Row.get r' "giorni_consegna" = Val.vnull)) :=
  ⟨by decide, by decide, C9_giorni_consegna dfConsegne (by decide) (by decide)⟩

/- ================= C7 / C8 ================= -/

theorem DF.ext2 {a b : DF} (h1 : a.cols = b.cols) (h2 : a.rows = b.rows) : a = b := by
  cases a
  cases b
  simp_all

theorem applicaTraduzioneValori_cols :
    ∀ (tv : List (String × List (String × String))) (d : DF),
      (applicaTraduzioneValori tv d).cols = d.cols := by
  intro tv
  induction tv with
  | nil => intro d; rfl
  | cons pr rest ih =>
    intro d
    unfold applicaTraduzioneValori at ih ⊢
    rw [List.foldl_cons]
    by_cases h : pr.1 ∈ d.cols
    · rw [if_pos h, ih (mapColVals d pr.1 pr.2)]
      rfl
    · rw [if_neg h, ih d]

theorem cellaValori_cons (pr : String × List (String × String))
    (rest : List (String × List (String × String))) (cols : List String) (kv : String × Val) :
    cellaValori (pr :: rest) cols kv =
      cellaValori rest cols
        (if pr.1 ∈ cols then
           (if kv.1 = pr.1 then (kv.1, applyValMap pr.2 kv.2) else kv)
         else kv) := rfl

theorem applicaTraduzioneValori_rows :
    ∀ (tv : List (String × List (String × String))) (d : DF),
      (applicaTraduzioneValori tv d).rows =
        d.rows.map (fun r => r.map (cellaValori tv d.cols)) := by
  intro tv
  induction tv with
  | nil =>
    intro d
    unfold applicaTraduzioneValori cellaValori
    simp
  | cons pr rest ih =>
    intro d
    unfold applicaTraduzioneValori at ih ⊢
    rw [List.foldl_cons]
    by_cases h : pr.1 ∈ d.cols
    · rw [if_pos h, ih (mapColVals d pr.1 pr.2)]
      simp only [mapColVals, List.map_map]
      apply List.map_congr_left
      intro r _
      simp only [Function.comp_apply, List.map_map]
      apply List.map_congr_left
      intro kv _
      simp only [Function.comp_apply, cellaValori_cons, h, if_true]
    · rw [if_neg h, ih d]
      apply List.map_congr_left
      intro r _
      apply List.map_congr_left
      intro kv _
      rw [cellaValori_cons, if_neg h]

theorem traduci_dataset_cols (df : DF) (tc : List (String × String))
    (tv : List (String × List (String × String))) :
    (traduci_dataset df tc tv).cols = df.cols.map (rename1 tc) := by
  unfold traduci_dataset
  rw [applicaTraduzioneValori_cols]

theorem traduci_dataset_rows (df : DF) (tc : List (String × String))
    (tv : List (String × List (String × String))) :
    (traduci_dataset df tc tv).rows =
      df.rows.map (fun r => r.map (cellaTraduzione tc tv (df.cols.map (rename1 tc)))) := by
  unfold traduci_dataset
  rw [applicaTraduzioneValori_rows]
  simp only [List.map_map]
  apply List.map_congr_left
  intro r _
  simp only [Function.comp_apply, List.map_map]
  apply List.map_congr_left
  intro kv _
  rfl

theorem rename1_idem_of_fix {tc : List (String × String)}
    (hfix : ∀ p ∈ tc, rename1 tc p.2 = p.2) (c : String) :
    rename1 tc (rename1 tc c) = rename1 tc c := by
  cases h : List.find? (fun p => p.1 == c) tc with
  | none =>
    have hc : rename1 tc c = c := by unfold rename1; rw [h]
    rw [hc, hc]
  | some p =>
    have hc : rename1 tc c = p.2 := by unfold rename1; rw [h]
    rw [hc, hfix p (List.mem_of_find?_eq_some h)]

theorem applyValMap_idem {m : List (String × String)}
    (hfix : ∀ p ∈ m, applyValMap m (Val.vstr p.2) = Val.vstr p.2) (v : Val) :
    applyValMap m (applyValMap m v) = applyValMap m v := by
  cases v with
  | vstr s =>
    cases h : List.find? (fun p => p.1 == s) m with
    | none =>
      have hv : applyValMap m (Val.vstr s) = Val.vstr s := by simp [applyValMap, h]
      rw [hv, hv]
    | some p =>
      have hv : applyValMap m (Val.vstr s) = Val.vstr p.2 := by simp [applyValMap, h]
      rw [hv, hfix p (List.mem_of_find?_eq_some h)]
  | vnull => rfl
  | vnum q => rfl
  | vdate d => rfl

/-- Every translated column name of src/config.py is a fixed point of the
rename map: no Italian target name is also an English source key. -/
theorem TRADUZIONE_COLONNE_fix :
    ∀ p ∈ TRADUZIONE_COLONNE, rename1 TRADUZIONE_COLONNE p.2 = p.2 := by decide

/-- Every translated order-status value is a fixed point of the status map. -/
theorem TRADUZIONE_STATI_fix :
    ∀ p ∈ TRADUZIONE_STATI_ORDINE,
      applyValMap TRADUZIONE_STATI_ORDINE (Val.vstr p.2) = Val.vstr p.2 := by decide

/-- Every translated payment-type value is a fixed point of the payment map
(the two source-equal entries "boleto" and "voucher" map to themselves). -/
theorem TRADUZIONE_PAGAMENTI_fix :
    ∀ p ∈ TRADUZIONE_PAGAMENTI,
      applyValMap TRADUZIONE_PAGAMENTI (Val.vstr p.2) = Val.vstr p.2 := by decide

theorem cellaValori_fst :
    ∀ (tv : List (String × List (String × String))) (cols : List String) (kv : String × Val),
      (cellaValori tv cols kv).1 = kv.1 := by
  intro tv
  induction tv with
  | nil => intro cols kv; rfl
  | cons pr rest ih =>
    intro cols kv
    rw [cellaValori_cons]
    by_cases h : pr.1 ∈ cols
    · by_cases hk : kv.1 = pr.1
      · rw [if_pos h, if_pos hk, ih]
      · rw [if_pos h, if_neg hk, ih]
    · rw [if_neg h, ih]

theorem cellaTraduzione_config_idem (C : List String) (kv : String × Val) :
    cellaTraduzione TRADUZIONE_COLONNE TRADUZIONE_VALORI C
        (cellaTraduzione TRADUZIONE_COLONNE TRADUZIONE_VALORI C kv) =
      cellaTraduzione TRADUZIONE_COLONNE TRADUZIONE_VALORI C kv := by
  obtain ⟨k, v⟩ := kv
  have hfst : (cellaTraduzione TRADUZIONE_COLONNE TRADUZIONE_VALORI C (k, v)).1 =
      rename1 TRADUZIONE_COLONNE k := by
    unfold cellaTraduzione
    rw [cellaValori_fst]
  unfold cellaTraduzione at hfst ⊢
  rw [hfst, rename1_idem_of_fix TRADUZIONE_COLONNE_fix]
  by_cases hk1 : rename1 TRADUZIONE_COLONNE k = "stato_ordine" <;>
    by_cases hk2 : rename1 TRADUZIONE_COLONNE k = "tipo_pagamento" <;>
      by_cases b1 : ("stato_ordine" : String) ∈ C <;>
        by_cases b2 : ("tipo_pagamento" : String) ∈ C
  all_goals first
    | exact absurd (hk1 ▸ hk2) (by decide)
    | simp [TRADUZIONE_VALORI, cellaValori, hk1, hk2, b1, b2,
        applyValMap_idem TRADUZIONE_STATI_fix, applyValMap_idem TRADUZIONE_PAGAMENTI_fix]

/-- C7: translation with the configured maps is idempotent — applying
`traduci_dataset` with `TRADUZIONE_COLONNE` and the configured value maps a
second time, to the already-translated table, changes nothing, because no
translated column name or value is itself a key of its map (other than as a
fixed point). -/
theorem C7_traduzione_idempotente (df : DF) :
    traduci_dataset (traduci_dataset df TRADUZIONE_COLONNE TRADUZIONE_VALORI)
        TRADUZIONE_COLONNE TRADUZIONE_VALORI =
      traduci_dataset df TRADUZIONE_COLONNE TRADUZIONE_VALORI := by
  have hmapren : ∀ l : List String,
      (l.map (rename1 TRADUZIONE_COLONNE)).map (rename1 TRADUZIONE_COLONNE) =
        l.map (rename1 TRADUZIONE_COLONNE) := by
    intro l
    rw [List.map_map]
    exact List.map_congr_left
      (fun c _ => rename1_idem_of_fix TRADUZIONE_COLONNE_fix c)
  apply DF.ext2
  · rw [traduci_dataset_cols, traduci_dataset_cols]
    exact hmapren df.cols
  · rw [traduci_dataset_rows, traduci_dataset_rows, traduci_dataset_cols, hmapren]
    rw [List.map_map]
    apply List.map_congr_left
    intro r _
    simp only [Function.comp_apply, List.map_map]
    apply List.map_congr_left
    intro kv _
    simp only [Function.comp_apply]
    exact cellaTraduzione_config_idem _ kv

theorem find?_filter_of_key {tc : List (String × String)} {cols : List String} {c : String}
    (hc : c ∈ cols) :
    (tc.filter (fun p => p.1 ∈ cols)).find? (fun p => p.1 == c) =
      tc.find? (fun p => p.1 == c) := by
  induction tc with
  | nil => rfl
  | cons p t ih =>
    by_cases hp : p.1 ∈ cols
    · rw [List.filter_cons_of_pos (by simpa using hp)]
      cases hpc : (p.1 == c) with
      | true => simp [hpc]
      | false => simp [hpc, ih]
    · have hpc : (p.1 == c) = false := by
        refine beq_eq_false_iff_ne.mpr ?_
        intro he
        exact hp (he ▸ hc)
      rw [List.filter_cons_of_neg (by simpa using hp)]
      simp [hpc, ih]

theorem rename1_filter {tc : List (String × String)} {cols : List String} {c : String}
    (hc : c ∈ cols) :
    rename1 (tc.filter (fun p => p.1 ∈ cols)) c = rename1 tc c := by
  unfold rename1
  rw [find?_filter_of_key hc]

theorem applyValMap_eq_self {m : List (String × String)} {v : Val}
    (h : ∀ s, v = Val.vstr s → m.find? (fun q => q.1 == s) = none) :
    applyValMap m v = v := by
  cases v with
  | vstr s => simp [applyValMap, h s rfl]
  | vnull => rfl
  | vnum q => rfl
  | vdate d => rfl

theorem cellaValori_unmapped :
    ∀ (tv : List (String × List (String × String))) (cols : List String) (k' : String) (v : Val),
      (∀ pr ∈ tv, pr.1 = k' → applyValMap pr.2 v = v) →
      cellaValori tv cols (k', v) = (k', v) := by
  intro tv
  induction tv with
  | nil => intro cols k' v _; rfl
  | cons pr rest ih =>
    intro cols k' v h
    rw [cellaValori_cons]
    have hstep : (if pr.1 ∈ cols then
        (if (k', v).1 = pr.1 then ((k', v).1, applyValMap pr.2 (k', v).2) else (k', v))
      else (k', v)) = (k', v) := by
      by_cases hmem : pr.1 ∈ cols
      · by_cases hk : k' = pr.1
        · rw [if_pos hmem, if_pos hk]
          rw [h pr (by simp) hk.symm]
        · rw [if_pos hmem, if_neg hk]
      · rw [if_neg hmem]
    rw [hstep]
    exact ih cols k' v (fun q hq => h q (List.mem_cons_of_mem pr hq))

/-- C8: column/value translation is a pure function of its inputs: rename
entries whose source key is not a column of the table have no effect (the
translation equals the one with those entries filtered out, for well-formed
tables whose row keys are among the columns), and every cell whose value is
not a key of the value map of its (renamed) column keeps exactly its
original value at its original position — unmapped values are never nulled. -/
theorem C8_traduzione_pura (df : DF) (tc : List (String × String))
    (tv : List (String × List (String × String)))
    (hwf : ∀ r ∈ df.rows, ∀ kv ∈ r, kv.1 ∈ df.cols) :
    traduci_dataset df tc tv =
      traduci_dataset df (tc.filter (fun p => p.1 ∈ df.cols)) tv ∧
    (∀ i : ℕ, ∀ r, df.rows[i]? = some r →
      ∃ r', (traduci_dataset df tc tv).rows[i]? = some r' ∧
        ∀ j : ℕ, ∀ k v, r[j]? = some (k, v) →
          (∀ pr ∈ tv, pr.1 = rename1 tc k →
            (∀ s, v = Val.vstr s → pr.2.find? (fun q => q.1 == s) = none)) →
          r'[j]? = some (rename1 tc k, v)) := by
  have hcols : df.cols.map (rename1 (tc.filter (fun p => p.1 ∈ df.cols))) =
      df.cols.map (rename1 tc) :=
    List.map_congr_left (fun c hc => rename1_filter hc)
  constructor
  · apply DF.ext2
    · rw [traduci_dataset_cols, traduci_dataset_cols, hcols]
    · rw [traduci_dataset_rows, traduci_dataset_rows, hcols]
      apply List.map_congr_left
      intro r hr
      apply List.map_congr_left
      intro kv hkv
      unfold cellaTraduzione
      rw [rename1_filter (hwf r hr kv hkv)]
  · intro i r hi
    refine ⟨r.map (cellaTraduzione tc tv (df.cols.map (rename1 tc))), ?_, ?_⟩
    · rw [traduci_dataset_rows]
      simp only [List.getElem?_map, hi, Option.map_some']
    · intro j k v hj hun
      simp only [List.getElem?_map, hj, Option.map_some']
      unfold cellaTraduzione
      rw [cellaValori_unmapped tv _ (rename1 tc k) v]
      intro pr hpr hprk
      exact applyValMap_eq_self (hun pr hpr hprk)

/-- Witness for C8: the purity theorem applied to a one-cell table, a rename
map whose only key is not a column, and a value map that does not contain
the cell's value. -/
theorem C8_traduzione_pura_witness :
    (∀ r ∈ dfTradWit.rows, ∀ kv ∈ r, kv.1 ∈ dfTradWit.cols) ∧
    (traduci_dataset dfTradWit [("zz", "b")] [("a", [("y", "z")])] =
      traduci_dataset dfTradWit
        (([("zz", "b")] : List (String × String)).filter (fun p => p.1 ∈ dfTradWit.cols))
        [("a", [("y", "z")])] ∧
     (∀ i : ℕ, ∀ r, dfTradWit.rows[i]? = some r →
       ∃ r', (traduci_dataset dfTradWit [("zz", "b")] [("a", [("y", "z")])]).rows[i]? =
           some r' ∧
         ∀ j : ℕ, ∀ k v, r[j]? = some (k, v) →
           (∀ pr ∈ ([("a", [("y", "z")])] : List (String × List (String × String))),
             pr.1 = rename1 [("zz", "b")] k →
             (∀ s, v = Val.vstr s → pr.2.find? (fun q => q.1 == s) = none)) →
           r'[j]? = some (rename1 [("zz", "b")] k, v))) :=
  ⟨by decide, C8_traduzione_pura dfTradWit [("zz", "b")] [("a", [("y", "z")])] (by decide)⟩

end BrEcom
